import Mathlib

/-!
# minimal-web-server: request parsing, routing and response serialisation

A shallow embedding of `main.go`.  A Go `string` is an immutable sequence of bytes, so it is
embedded as a list of bytes; `len` is the length of that list.  The functions of package
`strings`, `unicode/utf8`, `unicode`, `bufio` and `fmt` that `main.go` calls are embedded with
the behaviour of the Go standard library.  A run-time panic (index out of range) is the value
`none`.
-/

namespace MinimalWebServer

/-! ## Strings -/

/-- One byte of a Go string. -/
abbrev Byte := Fin 256

/-- A Go `string`: a sequence of bytes. -/
abbrev Str := List Byte

/-- The bytes of a Go string literal whose characters are all ASCII. -/
def ascii (s : String) : Str := s.toList.map (fun c => Fin.ofNat c.toNat)

/-- Go `const CLRF = "\r\n"`. -/
def CLRF : Str := ascii "\r\n"

/-- Go `strings.HasPrefix`: `len(s) >= len(prefix) && s[:len(prefix)] == prefix`. -/
def HasPrefix (s pre : Str) : Bool :=
  decide (pre.length ≤ s.length) && (s.take pre.length == pre)

/-- Go `strings.HasSuffix`: `len(s) >= len(suffix) && s[len(s)-len(suffix):] == suffix`. -/
def HasSuffix (s suf : Str) : Bool :=
  decide (suf.length ≤ s.length) && (s.drop (s.length - suf.length) == suf)

/-- Go `strings.Contains(s, substr)`, that is `strings.Index(s, substr) >= 0`: some position
of `s` starts an occurrence of `substr`. -/
def Contains : Str → Str → Bool
  | [], sub => sub.isEmpty
  | c :: t, sub => HasPrefix (c :: t) sub || Contains t sub

/-- Go `strings.TrimPrefix`. -/
def TrimPrefix (s pre : Str) : Str :=
  if HasPrefix s pre then s.drop pre.length else s

/-- Go `strings.TrimSuffix`. -/
def TrimSuffix (s suf : Str) : Str :=
  if HasSuffix s suf then s.take (s.length - suf.length) else s

/-- Go `strings.Split(s, sep)` for a separator `sep` of one byte (the source only splits on
`" "`): the substrings of `s` between the occurrences of the separator, in order; a string
with `n` separators gives `n + 1` fields. -/
def Split (s : Str) (sep : Byte) : List Str :=
  match s with
  | [] => [[]]
  | c :: t =>
    if c = sep then [] :: Split t sep
    else
      match Split t sep with
      | [] => [[c]]
      | f :: fs => (c :: f) :: fs

/-- The space character, the separator of `strings.Split(line, " ")`. -/
def SP : Byte := 32

/-! ## Integers in `%d` -/

/-- The digit loop of `fmt` for a non-negative value in base 10: while `u >= 10` the digit
`u - (u/10)*10` is written in front of what was written so far and `u` becomes `u/10`; the last
value (below 10) is the leading digit. -/
def fmtDigits : Nat → Nat → Str → Str
  | 0, u, acc => Fin.ofNat (48 + u % 10) :: acc
  | fuel + 1, u, acc =>
    if 10 ≤ u then fmtDigits fuel (u / 10) (Fin.ofNat (48 + (u - (u / 10) * 10)) :: acc)
    else Fin.ofNat (48 + u) :: acc

/-- The verb `%d` of `fmt` on a Go `int`: a minus sign for a negative value, then the decimal
digits of the magnitude. -/
def fmtInteger (n : Int) : Str :=
  (if n < 0 then ascii "-" else []) ++ fmtDigits n.natAbs n.natAbs []

/-! ## UTF-8 and white space (`unicode/utf8`, `unicode`, `strings.TrimSpace`) -/

/-- Go `utf8.RuneError`, the rune U+FFFD that decoding gives for an invalid encoding. -/
def RuneError : Nat := 0xFFFD

/-- Go `utf8.RuneSelf`: bytes below it are single-byte runes. -/
def RuneSelf : Nat := 0x80

/-- Go `utf8.DecodeRuneInString`: the first rune of `s` and its width in bytes.  An empty
string gives `(RuneError, 0)`, an invalid or incomplete encoding `(RuneError, 1)`.  The table
`first` and the accept ranges of the library are written out as comparisons on the lead byte:
the width is 2 for C2..DF, 3 for E0..EF, 4 for F0..F4, and the second byte is restricted to
A0..BF after E0, 80..9F after ED, 90..BF after F0, 80..8F after F4, and 80..BF otherwise. -/
def DecodeRuneInString (s : Str) : Nat × Nat :=
  match s with
  | [] => (RuneError, 0)
  | s0 :: t =>
    if s0.val < RuneSelf then (s0.val, 1)
    else if s0.val < 0xC2 ∨ 0xF4 < s0.val then (RuneError, 1)
    else
      let sz : Nat := if s0.val < 0xE0 then 2 else if s0.val < 0xF0 then 3 else 4
      let lo : Nat := if s0.val = 0xE0 then 0xA0 else if s0.val = 0xF0 then 0x90 else 0x80
      let hi : Nat := if s0.val = 0xED then 0x9F else if s0.val = 0xF4 then 0x8F else 0xBF
      if s.length < sz then (RuneError, 1)
      else
        match t with
        | [] => (RuneError, 1)
        | s1 :: t1 =>
          if s1.val < lo ∨ hi < s1.val then (RuneError, 1)
          else if sz ≤ 2 then (((s0.val &&& 0x1F) <<< 6) ||| (s1.val &&& 0x3F), 2)
          else
            match t1 with
            | [] => (RuneError, 1)
            | s2 :: t2 =>
              if s2.val < 0x80 ∨ 0xBF < s2.val then (RuneError, 1)
              else if sz ≤ 3 then
                (((s0.val &&& 0x0F) <<< 12) ||| ((s1.val &&& 0x3F) <<< 6) ||| (s2.val &&& 0x3F), 3)
              else
                match t2 with
                | [] => (RuneError, 1)
                | s3 :: _ =>
                  if s3.val < 0x80 ∨ 0xBF < s3.val then (RuneError, 1)
                  else
                    (((s0.val &&& 0x07) <<< 18) ||| ((s1.val &&& 0x3F) <<< 12)
                      ||| ((s2.val &&& 0x3F) <<< 6) ||| (s3.val &&& 0x3F), 4)

/-- Go `utf8.RuneStart`: the byte is not a continuation byte. -/
def RuneStart (b : Byte) : Bool := (b.val &&& 0xC0) != 0x80

/-- The backwards search of `utf8.DecodeLastRuneInString`:
`for start--; start >= lim; start-- { if RuneStart(s[start]) { break } }`, entered with
`start` already decremented once. -/
def lastRuneStart (s : Str) (lim : Int) : Nat → Int → Int
  | 0, start => start
  | fuel + 1, start =>
    if lim ≤ start then
      if RuneStart (s.getD start.toNat 0) then start else lastRuneStart s lim fuel (start - 1)
    else start

/-- Go `utf8.DecodeLastRuneInString`: the last rune of `s` and its width in bytes.  The search
looks back over at most `UTFMax = 4` bytes, so four steps of `lastRuneStart` end it. -/
def DecodeLastRuneInString (s : Str) : Nat × Nat :=
  let e := s.length
  if e = 0 then (RuneError, 0)
  else
    let r := (s.getD (e - 1) 0).val
    if r < RuneSelf then (r, 1)
    else
      let lim : Int := if (e : Int) - 4 < 0 then 0 else (e : Int) - 4
      let start0 := lastRuneStart s lim 4 ((e : Int) - 2)
      let start : Nat := if start0 < 0 then 0 else start0.toNat
      let (r, size) := DecodeRuneInString ((s.take e).drop start)
      if start + size ≠ e then (RuneError, 1) else (r, size)

/-- Go `unicode.IsSpace`: in Latin-1 the runes `\t \n \v \f \r`, space, U+0085 and U+00A0;
above Latin-1 the runes of the table `White_Space`. -/
def IsSpace (r : Nat) : Bool :=
  if r ≤ 0xFF then
    r = 0x09 ∨ r = 0x0A ∨ r = 0x0B ∨ r = 0x0C ∨ r = 0x0D ∨ r = 0x20 ∨ r = 0x85 ∨ r = 0xA0
  else
    r = 0x1680 ∨ (0x2000 ≤ r ∧ r ≤ 0x200A) ∨ r = 0x2028 ∨ r = 0x2029 ∨ r = 0x202F
      ∨ r = 0x205F ∨ r = 0x3000

/-- The table `asciiSpace` of package `strings`. -/
def asciiSpace (c : Byte) : Bool :=
  c = 0x09 ∨ c = 0x0A ∨ c = 0x0B ∨ c = 0x0C ∨ c = 0x0D ∨ c = 0x20

/-- The loop of Go `strings.indexFunc` (`for i, r := range s`), at byte offset `i` with
`rest = s[i:]`; every turn consumes at least one byte, so `len(s)` turns are enough. -/
def indexFuncLoop (f : Nat → Bool) (truth : Bool) : Nat → Nat → Str → Option Nat
  | 0, _, _ => none
  | fuel + 1, i, rest =>
    match rest with
    | [] => none
    | _ :: _ =>
      let (r, size) := DecodeRuneInString rest
      if f r == truth then some i else indexFuncLoop f truth fuel (i + size) (rest.drop size)

/-- Go `strings.indexFunc`: the offset of the first rune `r` with `f(r) == truth`; `none` is
the result `-1`. -/
def indexFunc (s : Str) (f : Nat → Bool) (truth : Bool) : Option Nat :=
  indexFuncLoop f truth s.length 0 s

/-- The loop of Go `strings.lastIndexFunc` (`for i := len(s); i > 0;`); every turn lowers `i`
by at least one, so `len(s)` turns are enough. -/
def lastIndexFuncLoop (s : Str) (f : Nat → Bool) (truth : Bool) : Nat → Nat → Option Nat
  | 0, _ => none
  | fuel + 1, i =>
    if i = 0 then none
    else
      let (r, size) := DecodeLastRuneInString (s.take i)
      if f r == truth then some (i - size) else lastIndexFuncLoop s f truth fuel (i - size)

/-- Go `strings.lastIndexFunc`: the offset of the last rune `r` with `f(r) == truth`; `none`
is the result `-1`. -/
def lastIndexFunc (s : Str) (f : Nat → Bool) (truth : Bool) : Option Nat :=
  lastIndexFuncLoop s f truth s.length s.length

/-- Go `strings.TrimLeftFunc`. -/
def TrimLeftFunc (s : Str) (f : Nat → Bool) : Str :=
  match indexFunc s f false with
  | none => []
  | some i => s.drop i

/-- Go `strings.TrimRightFunc`. -/
def TrimRightFunc (s : Str) (f : Nat → Bool) : Str :=
  match lastIndexFunc s f false with
  | none => s.take 0
  | some i =>
    if RuneSelf ≤ (s.getD i 0).val then s.take (i + (DecodeRuneInString (s.drop i)).2)
    else s.take (i + 1)

/-- Go `strings.TrimFunc`. -/
def TrimFunc (s : Str) (f : Nat → Bool) : Str :=
  TrimRightFunc (TrimLeftFunc s f) f

/-- The second loop of Go `strings.TrimSpace`, on the bytes of `s[start:stop]` in reverse
order: trailing ASCII white space is dropped; a byte of `RuneSelf` or more hands
`s[start:stop]` to `TrimRightFunc`. -/
def trimSpaceStop : Str → Str
  | [] => []
  | c :: t =>
    if RuneSelf ≤ c.val then TrimRightFunc (c :: t).reverse IsSpace
    else if asciiSpace c then trimSpaceStop t
    else (c :: t).reverse

/-- Go `strings.TrimSpace`.  The first loop drops leading ASCII white space; a byte of
`RuneSelf` or more hands the rest to `TrimFunc`; then the second loop trims the end. -/
def TrimSpace : Str → Str
  | [] => []
  | c :: t =>
    if RuneSelf ≤ c.val then TrimFunc (c :: t) IsSpace
    else if asciiSpace c then TrimSpace t
    else trimSpaceStop (c :: t).reverse

/-! ## The data model of `main.go` -/

/-- Go `type HttpRequest struct`. -/
structure HttpRequest where
  Method : Str
  Target : Str
  Version : Str
  deriving DecidableEq, Repr

/-- Go `type RequestHeaders struct`. -/
structure RequestHeaders where
  Host : Str
  UserAgent : Str
  deriving DecidableEq, Repr

/-- Go `type Request struct`, which embeds `HttpRequest` and `RequestHeaders`. -/
structure Request extends HttpRequest, RequestHeaders where
  RequestBody : Str
  Accept : Str
  deriving DecidableEq, Repr

/-- Go `type ResponseHeaders struct`. -/
structure ResponseHeaders where
  ContentType : Str
  ContentLength : Int
  deriving DecidableEq, Repr

/-- Go `type ResponseBody struct`. -/
structure ResponseBody where
  Message : Str
  deriving DecidableEq, Repr

/-- Go `type Response struct`, which embeds `ResponseHeaders` and `ResponseBody`. -/
structure Response extends ResponseHeaders, ResponseBody where
  Version : Str
  StatusCode : Int
  StatusMessage : Str
  deriving DecidableEq, Repr

/-! ## The line reader and `NewRequest` -/

/-- The lines that the successive calls `l.ReadString('\n')` return before the first call
that reports an error, for a connection that delivers the bytes `conn` and then ends (end of
stream or a read error).  Every line runs up to and including a line feed; bytes after the
last line feed come back together with the error and are dropped by the `break`. -/
def readLines : Str → List Str
  | [] => []
  | c :: t =>
    if c = 10 then [c] :: readLines t
    else
      match readLines t with
      | [] => []
      | l :: ls => (c :: l) :: ls

/-- The body of the loop of `NewRequest` below the test `line == CLRF`, on the variables
`httpReq` and `reqHeaders`.  The three `if` statements run one after the other; an index
expression `strings.Split(line, " ")[i]` out of range is a run-time panic, `none`. -/
def processLine (st : HttpRequest × RequestHeaders) (line : Str) :
    Option (HttpRequest × RequestHeaders) := do
  let httpReq := st.1
  let reqHeaders := st.2
  let reqHeaders ←
    if HasPrefix line (ascii "User-Agent:") then do
      let s ← (Split line SP)[1]?
      pure { reqHeaders with UserAgent := s }
    else pure reqHeaders
  let reqHeaders ←
    if HasPrefix line (ascii "Host:") then do
      let s ← (Split line SP)[1]?
      pure { reqHeaders with Host := s }
    else pure reqHeaders
  let httpReq ←
    if Contains line (ascii "HTTP/1.1") then do
      let s1 ← (Split line SP)[0]?
      let s2 ← (Split line SP)[1]?
      let s3 ← (Split line SP)[2]?
      pure { httpReq with Version := TrimSuffix s3 CLRF, Method := s1, Target := s2 }
    else pure httpReq
  pure (httpReq, reqHeaders)

/-- The loop `for { ... }` of `NewRequest` over the lines the reader delivers: it ends at the
first line equal to `CLRF`, or when the reader reports an error (no line left). -/
def requestLoop (st : HttpRequest × RequestHeaders) : List Str →
    Option (HttpRequest × RequestHeaders)
  | [] => some st
  | line :: rest =>
    if line = CLRF then some st
    else
      match processLine st line with
      | none => none
      | some st' => requestLoop st' rest

/-- Go `func NewRequest(conn net.Conn) Request` on a connection that delivers the bytes `conn`.
All variables start at their zero value (empty strings); `none` is a panic. -/
def NewRequest (conn : Str) : Option Request :=
  match requestLoop (⟨[], [], []⟩, ⟨[], []⟩) (readLines conn) with
  | none => none
  | some (httpReq, reqHeaders) =>
    some { toHttpRequest := httpReq, toRequestHeaders := reqHeaders, RequestBody := [],
           Accept := ascii "*/*" }

/-! ## The router -/

/-- Go `func (r *Request) handleUserAgent() Response`. -/
def handleUserAgent (r : Request) : Response :=
  let str := TrimSpace r.UserAgent
  let stringLenght : Int := str.length
  { Version := r.Version, StatusCode := 200, StatusMessage := ascii "OK",
    ContentType := ascii "text/plain", ContentLength := stringLenght, Message := str }

/-- Go `func (r *Request) handleEcho() Response`. -/
def handleEcho (r : Request) : Response :=
  let str := TrimPrefix r.Target (ascii "/echo/")
  let stringLenght : Int := str.length
  { Version := r.Version, StatusCode := 200, StatusMessage := ascii "OK",
    ContentType := ascii "text/plain", ContentLength := stringLenght, Message := str }

/-- Go `func (r *Request) Parse() Response`: the `switch` takes the first case that holds. -/
def Parse (r : Request) : Response :=
  if r.Target = ascii "/" then
    { Version := r.Version, StatusCode := 200, StatusMessage := ascii "OK",
      ContentType := ascii "text/plain", ContentLength := 0, Message := ascii "" }
  else if Contains r.Target (ascii "/echo/") then handleEcho r
  else if Contains r.Target (ascii "/user-agent") then handleUserAgent r
  else
    { Version := r.Version, StatusCode := 404, StatusMessage := ascii "Not Found",
      ContentType := ascii "text/plain", ContentLength := 0, Message := ascii "" }

/-! ## The serialiser -/

/-- An operand of `fmt.Sprintf`: a string (for `%s`) or an `int` (for `%d`). -/
inductive Arg where
  | str (s : Str)
  | int (n : Int)
  deriving DecidableEq, Repr

/-- Go `fmt.Sprintf` on the fragment that `main.go` uses: the format is copied byte by byte,
`%s` is replaced by the next operand when it is a string and `%d` by the decimal form of the
next operand when it is an integer.  Every other use of `%` (another verb, an operand of the
other kind, a missing or a left-over operand) makes Go insert a `%!` diagnostic; those forms
are outside the fragment and are `none` here. -/
def Sprintf : Str → List Arg → Option Str
  | [], [] => some []
  | [], _ :: _ => none
  | c :: fmt, args =>
    if c = 37 then
      match fmt, args with
      | v :: fmt', Arg.str s :: args' =>
        if v = 115 then (Sprintf fmt' args').map (s ++ ·) else none
      | v :: fmt', Arg.int n :: args' =>
        if v = 100 then (Sprintf fmt' args').map (fmtInteger n ++ ·) else none
      | _, _ => none
    else (Sprintf fmt args).map (c :: ·)

/-- Go `func (r *Request) WriteResponse(resp Response) []byte`; the receiver is not used. -/
def WriteResponse (resp : Response) : Option Str :=
  Sprintf (ascii "%s %d %s\r\nContent-Type: %s\r\nContent-Length: %d\r\n\r\n%s")
    [Arg.str resp.Version, Arg.int resp.StatusCode, Arg.str resp.StatusMessage,
     Arg.str resp.ContentType, Arg.int resp.ContentLength, Arg.str resp.Message]

/-! ## Decimal numerals -/

/-- The digit byte of a value below ten. -/
def digitByte (d : Nat) : Byte := Fin.ofNat (48 + d)

/-- The byte is one of the digits "0" to "9". -/
def isDigit (c : Byte) : Bool := decide (48 ≤ c.val) && decide (c.val ≤ 57)

/-- The number that a string of decimal digits denotes, most significant digit first. -/
def digitsValue (ds : Str) : Nat := ds.foldl (fun a c => 10 * a + (c.val - 48)) 0

/-- The string `ds` is the decimal numeral of the natural number `m` with no leading zeros:
it is not empty, all its bytes are digits, it starts with "0" only when it is "0", and it
denotes `m`. -/
def isNatNumeral (ds : Str) (m : Nat) : Bool :=
  !ds.isEmpty && ds.all isDigit && (ds.head? != some 48 || ds == [48]) && digitsValue ds == m

/-- The string `ds` is the decimal numeral of the integer `n` with no leading zeros: a minus
sign exactly when `n` is negative, then the numeral of the magnitude. -/
def isIntNumeral (ds : Str) (n : Int) : Bool :=
  if n < 0 then
    match ds with
    | [] => false
    | c :: ds' => c == 45 && isNatNumeral ds' n.natAbs
  else isNatNumeral ds n.natAbs

/-! ## Occurrences of a pattern -/

/-- The number of positions of `s` at which an occurrence of `pat` starts (occurrences that
overlap are all counted). -/
def occurrences (pat : Str) : Str → Nat
  | [] => if HasPrefix [] pat then 1 else 0
  | c :: t => (if HasPrefix (c :: t) pat then 1 else 0) + occurrences pat t

/-! ## Conformant request streams -/

/-- The string is not empty and holds no space, carriage return or line feed. -/
def isToken (s : Str) : Bool := !s.isEmpty && s.all (fun c => c != 32 && c != 13 && c != 10)

/-- The request line "M T HTTP/1.1\r\n". -/
def requestLine (M T : Str) : Str := M ++ ascii " " ++ T ++ ascii " HTTP/1.1\r\n"

/-- The header line "Name: value\r\n". -/
def headerLine (name value : Str) : Str := name ++ ascii ": " ++ value ++ CLRF

/-- The header lines of a list of (name, value) pairs, one after the other. -/
def headerLines : List (Str × Str) → Str
  | [] => []
  | nv :: hs => headerLine nv.1 nv.2 ++ headerLines hs

/-! ## Streams of lines and the connection handler -/

/-- The string is one line as the reader delivers it: it ends in a line feed and holds no
other line feed. -/
def isLine (l : Str) : Bool :=
  match l.reverse with
  | [] => false
  | c :: t => c == 10 && !t.contains 10

/-- The bytes of a sequence of lines, one after the other. -/
def streamOf : List Str → Str
  | [] => []
  | l :: ls => l ++ streamOf ls

/-- The line cannot make `NewRequest` panic: a line that begins with "User-Agent:" or "Host:"
holds at least one space, and a line that contains "HTTP/1.1" holds at least two spaces. -/
def lineSafe (line : Str) : Bool :=
  (!(HasPrefix line (ascii "User-Agent:") || HasPrefix line (ascii "Host:"))
      || decide (1 ≤ line.count SP))
    && (!Contains line (ascii "HTTP/1.1") || decide (2 ≤ line.count SP))

/-- Go `func handleConnection(conn net.Conn)` on a connection that delivers the bytes `conn`:
the bytes handed to `conn.Write`, that is `NewRequest`, then `Parse`, then `WriteResponse`;
`none` is a panic. -/
def handleConnection (conn : Str) : Option Str :=
  match NewRequest conn with
  | none => none
  | some request => WriteResponse (Parse request)

/-! ## White space characters -/

/-- The UTF-8 encodings of the runes for which `unicode.IsSpace` holds: the six ASCII white
space bytes, U+0085, U+00A0, U+1680, U+2000 to U+200A, U+2028, U+2029, U+202F, U+205F and
U+3000. -/
def spaceEncodings : List Str :=
  [[0x09], [0x0A], [0x0B], [0x0C], [0x0D], [0x20], [0xC2, 0x85], [0xC2, 0xA0],
   [0xE1, 0x9A, 0x80],
   [0xE2, 0x80, 0x80], [0xE2, 0x80, 0x81], [0xE2, 0x80, 0x82], [0xE2, 0x80, 0x83],
   [0xE2, 0x80, 0x84], [0xE2, 0x80, 0x85], [0xE2, 0x80, 0x86], [0xE2, 0x80, 0x87],
   [0xE2, 0x80, 0x88], [0xE2, 0x80, 0x89], [0xE2, 0x80, 0x8A],
   [0xE2, 0x80, 0xA8], [0xE2, 0x80, 0xA9], [0xE2, 0x80, 0xAF], [0xE2, 0x81, 0x9F],
   [0xE3, 0x80, 0x80]]

/-- The string holds a white space character: the encoding of a white space rune occurs
in it. -/
def hasSpace (s : Str) : Bool := spaceEncodings.any (fun e => Contains s e)

/-- What is needed of a decoding result: the width is at least one and at most the length,
and a white space rune comes from one of the listed encodings. -/
def DecodeOk (s : Str) (d : Nat × Nat) : Prop :=
  1 ≤ d.2 ∧ d.2 ≤ s.length ∧ (IsSpace d.1 = true → s.take d.2 ∈ spaceEncodings)

/-! ## Facts about the string functions -/

theorem HasPrefix_iff (s pre : Str) : HasPrefix s pre = true ↔ pre <+: s := by
  unfold HasPrefix
  rw [List.prefix_iff_eq_take]
  constructor
  · intro h
    simp only [Bool.and_eq_true, decide_eq_true_eq, beq_iff_eq] at h
    exact h.2.symm
  · intro h
    have hl : pre.length ≤ s.length := by
      have := congrArg List.length h
      simp only [List.length_take] at this
      omega
    simp only [Bool.and_eq_true, decide_eq_true_eq, beq_iff_eq]
    exact ⟨hl, h.symm⟩

theorem HasPrefix_append (pre s : Str) : HasPrefix (pre ++ s) pre = true :=
  (HasPrefix_iff _ _).2 (List.prefix_append pre s)

theorem Contains_iff (s sub : Str) : Contains s sub = true ↔ sub <:+: s := by
  induction s with
  | nil =>
    cases sub <;> simp [Contains]
  | cons c t ih =>
    rw [Contains, Bool.or_eq_true, HasPrefix_iff, ih, List.infix_cons_iff]

theorem Contains_append (a sub b : Str) : Contains (a ++ sub ++ b) sub = true :=
  (Contains_iff _ _).2 ⟨a, b, rfl⟩

theorem TrimPrefix_append (pre s : Str) : TrimPrefix (pre ++ s) pre = s := by
  simp [TrimPrefix, HasPrefix_append]

/-- The white space of `TrimSpace` on an ASCII value: what the parser stores for the line
"User-Agent: curl/8.1\r\n", with a tab before it, is trimmed to "curl/8.1". -/
theorem TrimSpace_ascii_example :
    TrimSpace (ascii "\tcurl/8.1\r\n") = ascii "curl/8.1" := by
  decide

/-- The white space of `TrimSpace` beyond ASCII: U+00A0 (C2 A0) in front and U+3000
(E3 80 80) behind are removed, a lone continuation byte is kept. -/
theorem TrimSpace_unicode_example :
    TrimSpace [0x20, 0xC2, 0xA0, 0x61, 0x80, 0xE3, 0x80, 0x80, 0x20] = [0x61, 0x80] := by
  decide

/-! ## Facts about `%d` and `Sprintf` -/

theorem digitByte_val (d : Nat) (h : d < 10) : (digitByte d).val = 48 + d := by
  simp only [digitByte, Fin.ofNat]
  omega

theorem fmtDigits_eq (fuel : Nat) : ∀ (u : Nat) (acc : Str), u ≤ fuel →
    fmtDigits fuel u acc
      = (if u = 0 then [digitByte 0] else (Nat.digits 10 u).reverse.map digitByte) ++ acc := by
  induction fuel with
  | zero =>
    intro u acc hu
    have h0 : u = 0 := by omega
    subst h0
    rfl
  | succ fuel ih =>
    intro u acc hu
    rw [fmtDigits]
    by_cases h10 : 10 ≤ u
    · have hpos : 0 < u := by omega
      have hq : u / 10 ≠ 0 := by omega
      have hm : u - u / 10 * 10 = u % 10 := by omega
      rw [if_pos h10, ih (u / 10) _ (by omega), if_neg hq, if_neg (by omega), hm,
        Nat.digits_def' (by norm_num) hpos]
      simp [digitByte]
    · rw [if_neg h10]
      by_cases h0 : u = 0
      · subst h0
        rfl
      · rw [if_neg h0, Nat.digits_of_lt 10 u h0 (by omega)]
        rfl

theorem digitsValue_append (a : Str) (c : Byte) :
    digitsValue (a ++ [c]) = 10 * digitsValue a + (c.val - 48) := by
  simp [digitsValue, List.foldl_append]

theorem digitsValue_digits (L : List Nat) (hL : ∀ d ∈ L, d < 10) :
    digitsValue (L.reverse.map digitByte) = Nat.ofDigits 10 L := by
  induction L with
  | nil => rfl
  | cons d L ih =>
    have hd : d < 10 := hL d (List.mem_cons_self _ _)
    rw [List.reverse_cons, List.map_append, List.map_singleton, digitsValue_append,
      ih (fun x hx => hL x (List.mem_cons_of_mem _ hx)), digitByte_val d hd, Nat.ofDigits_cons]
    omega

theorem isNatNumeral_fmtDigits (u : Nat) : isNatNumeral (fmtDigits u u []) u = true := by
  rw [fmtDigits_eq u u [] le_rfl, List.append_nil]
  by_cases h0 : u = 0
  · subst h0
    decide
  · rw [if_neg h0]
    have hne : Nat.digits 10 u ≠ [] := Nat.digits_ne_nil_iff_ne_zero.mpr h0
    have hlt : ∀ d ∈ Nat.digits 10 u, d < 10 := fun d hd => Nat.digits_lt_base (by norm_num) hd
    have hlast : (Nat.digits 10 u).getLast hne ≠ 0 := Nat.getLast_digit_ne_zero 10 h0
    have hval := digitsValue_digits (Nat.digits 10 u) hlt
    rw [Nat.ofDigits_digits] at hval
    obtain ⟨L, d, hLd⟩ : ∃ L d, Nat.digits 10 u = L ++ [d] :=
      ⟨_, _, (List.dropLast_append_getLast hne).symm⟩
    have hd0 : d ≠ 0 := by
      have := hlast
      simp only [hLd, List.getLast_append_singleton] at this
      exact this
    have hd10 : d < 10 := hlt d (by simp [hLd])
    have hhead : digitByte d ≠ 48 := by
      intro hc
      have := congrArg Fin.val hc
      rw [digitByte_val d hd10] at this
      have h48 : (48 : Byte).val = 48 := rfl
      omega
    have hall : ∀ c ∈ (Nat.digits 10 u).reverse.map digitByte, isDigit c = true := by
      intro c hc
      obtain ⟨x, hx, rfl⟩ := List.mem_map.mp hc
      have hx10 := hlt x (List.mem_reverse.mp hx)
      simp only [isDigit, digitByte_val x hx10, Bool.and_eq_true, decide_eq_true_eq]
      omega
    simp only [isNatNumeral, Bool.and_eq_true, Bool.or_eq_true, bne_iff_ne, beq_iff_eq,
      List.all_eq_true, Bool.not_eq_true', ne_eq]
    refine ⟨⟨⟨?_, hall⟩, Or.inl ?_⟩, hval⟩
    · simp [hLd]
    · simp [hLd, hhead]

theorem isIntNumeral_fmtInteger (n : Int) : isIntNumeral (fmtInteger n) n = true := by
  unfold isIntNumeral fmtInteger
  by_cases hn : n < 0
  · simp only [if_pos hn]
    show ((45 : Byte) == 45 && isNatNumeral (fmtDigits n.natAbs n.natAbs []) n.natAbs) = true
    rw [isNatNumeral_fmtDigits]
    rfl
  · simp only [if_neg hn, List.nil_append]
    exact isNatNumeral_fmtDigits _

theorem Sprintf_lit (c : Byte) (hc : c ≠ 37) (fmt : Str) (args : List Arg) :
    Sprintf (c :: fmt) args = (Sprintf fmt args).map (c :: ·) := by
  cases fmt with
  | nil => cases args <;> simp [Sprintf, hc]
  | cons v fmt =>
    cases args with
    | nil => simp [Sprintf, hc]
    | cons a args => cases a <;> simp [Sprintf, hc]

theorem Sprintf_s (fmt : Str) (s : Str) (args : List Arg) :
    Sprintf (37 :: 115 :: fmt) (Arg.str s :: args) = (Sprintf fmt args).map (s ++ ·) := by
  simp [Sprintf]

theorem Sprintf_d (fmt : Str) (n : Int) (args : List Arg) :
    Sprintf (37 :: 100 :: fmt) (Arg.int n :: args)
      = (Sprintf fmt args).map (fmtInteger n ++ ·) := by
  simp [Sprintf]

theorem ofNat_lit (k : Nat) : (Fin.ofNat k : Byte) = ((k : Nat) : Byte) := by
  apply Fin.ext
  simp [Fin.ofNat, Fin.val_natCast]

theorem WriteResponse_eq (resp : Response) :
    WriteResponse resp
      = some (resp.Version ++ ascii " " ++ fmtInteger resp.StatusCode ++ ascii " "
          ++ resp.StatusMessage ++ CLRF ++ ascii "Content-Type: " ++ resp.ContentType ++ CLRF
          ++ ascii "Content-Length: " ++ fmtInteger resp.ContentLength ++ CLRF ++ CLRF
          ++ resp.Message) := by
  simp [WriteResponse, ascii, CLRF, ofNat_lit, Sprintf_lit, Sprintf_s, Sprintf_d, Sprintf]

/-! ## The router -/

/-- C1: a request whose target is exactly "/" gets status 200 "OK", an empty body and
contentLength 0, whatever its other fields are. -/
theorem Parse_root (r : Request) (h : r.Target = ascii "/") :
    (Parse r).StatusCode = 200 ∧ (Parse r).StatusMessage = ascii "OK" ∧
      (Parse r).Message = [] ∧ (Parse r).ContentLength = 0 := by
  rw [Parse, if_pos h]
  exact ⟨rfl, rfl, rfl, rfl⟩

theorem Parse_root_witness :
    (Parse ⟨⟨ascii "POST", ascii "/", ascii "HTTP/1.0"⟩, ⟨ascii "h", ascii "ua"⟩, [], []⟩).StatusCode
        = 200 ∧
      (Parse ⟨⟨ascii "POST", ascii "/", ascii "HTTP/1.0"⟩, ⟨ascii "h", ascii "ua"⟩, [], []⟩).StatusMessage
        = ascii "OK" ∧
      (Parse ⟨⟨ascii "POST", ascii "/", ascii "HTTP/1.0"⟩, ⟨ascii "h", ascii "ua"⟩, [], []⟩).Message
        = [] ∧
      (Parse ⟨⟨ascii "POST", ascii "/", ascii "HTTP/1.0"⟩, ⟨ascii "h", ascii "ua"⟩, [], []⟩).ContentLength
        = 0 :=
  Parse_root _ rfl

/-- C2: for every string S, a request whose target is "/echo/" followed by S gets status 200
"OK", the body S and contentLength equal to the byte length of S. -/
theorem Parse_echo (r : Request) (S : Str) (h : r.Target = ascii "/echo/" ++ S) :
    (Parse r).StatusCode = 200 ∧ (Parse r).StatusMessage = ascii "OK" ∧
      (Parse r).Message = S ∧ (Parse r).ContentLength = (S.length : Int) := by
  have hne : r.Target ≠ ascii "/" := by
    rw [h]
    intro hc
    have := congrArg List.length hc
    simp [ascii] at this
  have hc : Contains r.Target (ascii "/echo/") = true := by
    rw [h]
    simpa using Contains_append [] (ascii "/echo/") S
  rw [Parse, if_neg hne, if_pos hc, handleEcho, h, TrimPrefix_append]
  exact ⟨rfl, rfl, rfl, rfl⟩

theorem Parse_echo_witness :
    (Parse ⟨⟨ascii "GET", ascii "/echo/" ++ ascii "abc", ascii "HTTP/1.1"⟩, ⟨[], []⟩, [], []⟩).StatusCode
        = 200 ∧
      (Parse ⟨⟨ascii "GET", ascii "/echo/" ++ ascii "abc", ascii "HTTP/1.1"⟩, ⟨[], []⟩, [], []⟩).StatusMessage
        = ascii "OK" ∧
      (Parse ⟨⟨ascii "GET", ascii "/echo/" ++ ascii "abc", ascii "HTTP/1.1"⟩, ⟨[], []⟩, [], []⟩).Message
        = ascii "abc" ∧
      (Parse ⟨⟨ascii "GET", ascii "/echo/" ++ ascii "abc", ascii "HTTP/1.1"⟩, ⟨[], []⟩, [], []⟩).ContentLength
        = ((ascii "abc").length : Int) :=
  Parse_echo _ (ascii "abc") rfl

/-- C3, as stated, fails: the target "/echo/user-agent" contains "/user-agent", but the echo
case comes first in the switch, so the body is "user-agent" and not the trimmed User-Agent
value "curl". -/
theorem Parse_userAgent_counterexample :
    Contains (ascii "/echo/user-agent") (ascii "/user-agent") = true ∧
      (Parse ⟨⟨ascii "GET", ascii "/echo/user-agent", ascii "HTTP/1.1"⟩,
          ⟨[], ascii "curl"⟩, [], []⟩).Message = ascii "user-agent" ∧
      TrimSpace (ascii "curl") = ascii "curl" ∧
      (Parse ⟨⟨ascii "GET", ascii "/echo/user-agent", ascii "HTTP/1.1"⟩,
          ⟨[], ascii "curl"⟩, [], []⟩).Message ≠ TrimSpace (ascii "curl") := by
  decide

/-- C3, amended: for every User-Agent value U and every target that contains "/user-agent"
and does not contain "/echo/", the body of the response is U with leading and trailing white
space removed (`strings.TrimSpace`) and contentLength is the byte length of that trimmed
value. -/
theorem Parse_userAgent (r : Request)
    (hua : Contains r.Target (ascii "/user-agent") = true)
    (hecho : Contains r.Target (ascii "/echo/") = false) :
    (Parse r).Message = TrimSpace r.UserAgent ∧
      (Parse r).ContentLength = ((TrimSpace r.UserAgent).length : Int) := by
  have hne : r.Target ≠ ascii "/" := by
    intro hc
    rw [hc] at hua
    revert hua
    decide
  rw [Parse, if_neg hne, hecho, if_pos hua, handleUserAgent]
  exact ⟨rfl, rfl⟩

theorem Parse_userAgent_witness :
    (Parse ⟨⟨ascii "GET", ascii "/user-agent", ascii "HTTP/1.1"⟩,
        ⟨[], ascii " curl/8.1\r\n"⟩, [], []⟩).Message = TrimSpace (ascii " curl/8.1\r\n") ∧
      (Parse ⟨⟨ascii "GET", ascii "/user-agent", ascii "HTTP/1.1"⟩,
        ⟨[], ascii " curl/8.1\r\n"⟩, [], []⟩).ContentLength
        = ((TrimSpace (ascii " curl/8.1\r\n")).length : Int) :=
  Parse_userAgent _ (by decide) (by decide)

/-- C4: a request whose target is not exactly "/" and contains neither "/echo/" nor
"/user-agent" gets status 404 "Not Found", an empty body and contentLength 0. -/
theorem Parse_notFound (r : Request) (hroot : r.Target ≠ ascii "/")
    (hecho : Contains r.Target (ascii "/echo/") = false)
    (hua : Contains r.Target (ascii "/user-agent") = false) :
    (Parse r).StatusCode = 404 ∧ (Parse r).StatusMessage = ascii "Not Found" ∧
      (Parse r).Message = [] ∧ (Parse r).ContentLength = 0 := by
  rw [Parse, if_neg hroot, hecho, hua]
  exact ⟨rfl, rfl, rfl, rfl⟩

theorem Parse_notFound_witness :
    (Parse ⟨⟨ascii "GET", ascii "/nope", ascii "HTTP/1.1"⟩, ⟨[], []⟩, [], []⟩).StatusCode = 404 ∧
      (Parse ⟨⟨ascii "GET", ascii "/nope", ascii "HTTP/1.1"⟩, ⟨[], []⟩, [], []⟩).StatusMessage
        = ascii "Not Found" ∧
      (Parse ⟨⟨ascii "GET", ascii "/nope", ascii "HTTP/1.1"⟩, ⟨[], []⟩, [], []⟩).Message = [] ∧
      (Parse ⟨⟨ascii "GET", ascii "/nope", ascii "HTTP/1.1"⟩, ⟨[], []⟩, [], []⟩).ContentLength = 0 :=
  Parse_notFound _ (by decide) (by decide) (by decide)

/-- C6: for every request, the response of the router has contentLength equal to the byte
length of its body. -/
theorem Parse_contentLength (r : Request) :
    (Parse r).ContentLength = ((Parse r).Message.length : Int) := by
  unfold Parse
  split_ifs <;> simp [handleEcho, handleUserAgent, ascii]

/-- C8: for every request, on each of the four routes, the response has contentType
"text/plain" and the version of the request. -/
theorem Parse_contentType_version (r : Request) :
    (Parse r).ContentType = ascii "text/plain" ∧ (Parse r).Version = r.Version := by
  unfold Parse
  split_ifs <;> simp [handleEcho, handleUserAgent]

/-! ## Counting blank lines -/

theorem HasPrefix_append_sep (pat l b : Str) (x : Byte) (hx : x ∉ pat) :
    HasPrefix (l ++ x :: b) pat = HasPrefix l pat := by
  rw [Bool.eq_iff_iff, HasPrefix_iff, HasPrefix_iff]
  constructor
  · intro h
    by_cases hl : pat.length ≤ l.length
    · exact List.prefix_of_prefix_length_le h (List.prefix_append l (x :: b)) hl
    · exfalso
      have h1 : l ++ [x] <+: l ++ x :: b := by
        rw [List.prefix_append_right_inj]
        exact List.prefix_iff_eq_take.mpr (by simp)
      have h2 : l ++ [x] <+: pat :=
        List.prefix_of_prefix_length_le h1 h (by simp; omega)
      exact hx (h2.subset (by simp))
  · intro h
    exact h.trans (List.prefix_append l (x :: b))

theorem HasPrefix_cons_ne (pat t : Str) (x : Byte) (hx : x ∉ pat) (hp : pat ≠ []) :
    HasPrefix (x :: t) pat = false := by
  rw [Bool.eq_false_iff]
  intro h
  rw [HasPrefix_iff] at h
  cases pat with
  | nil => exact hp rfl
  | cons p ps =>
    have := (List.cons_prefix_cons.mp h).1
    exact hx (by simp [this])

theorem HasPrefix_nil (pat : Str) (hp : pat ≠ []) : HasPrefix [] pat = false := by
  cases pat with
  | nil => exact absurd rfl hp
  | cons p ps => rfl

theorem occurrences_cons (pat t : Str) (c : Byte) :
    occurrences pat (c :: t)
      = (if HasPrefix (c :: t) pat then 1 else 0) + occurrences pat t := rfl

theorem occurrences_append_sep (pat b : Str) (x : Byte) (hx : x ∉ pat) (hp : pat ≠ []) :
    ∀ a : Str, occurrences pat (a ++ x :: b) = occurrences pat a + occurrences pat b := by
  intro a
  induction a with
  | nil =>
    simp [occurrences, HasPrefix_cons_ne pat b x hx hp, HasPrefix_nil pat hp]
  | cons c a ih =>
    have := HasPrefix_append_sep pat (c :: a) b x hx
    simp only [List.cons_append] at this
    rw [List.cons_append, occurrences_cons, occurrences_cons, this, ih]
    omega

theorem occurrences_skip (pat Y : Str) (hp : pat ≠ []) :
    ∀ ds : Str, (∀ c ∈ ds, c ∉ pat) → occurrences pat (ds ++ Y) = occurrences pat Y := by
  intro ds
  induction ds with
  | nil => intro _; rfl
  | cons d ds ih =>
    intro h
    have hd : d ∉ pat := h d (List.mem_cons_self _ _)
    rw [List.cons_append, occurrences_cons, HasPrefix_cons_ne pat _ d hd hp,
      ih (fun c hc => h c (List.mem_cons_of_mem _ hc))]
    simp

theorem occurrences_eq_zero (pat : Str) :
    ∀ s : Str, Contains s pat = false → occurrences pat s = 0 := by
  intro s
  induction s with
  | nil =>
    intro h
    cases pat with
    | nil => simp [Contains] at h
    | cons p ps => rfl
  | cons c t ih =>
    intro h
    rw [Contains, Bool.or_eq_false_iff] at h
    rw [occurrences_cons, h.1, ih h.2]
    rfl

theorem HasPrefix_cons_head_ne (x p : Byte) (t ps : Str) (h : x ≠ p) :
    HasPrefix (x :: t) (p :: ps) = false := by
  rw [Bool.eq_false_iff]
  intro hc
  rw [HasPrefix_iff] at hc
  exact h (List.cons_prefix_cons.mp hc).1.symm

theorem occurrences_blank_line (body : Str)
    (hb : Contains (CLRF ++ body) (CLRF ++ CLRF) = false) :
    occurrences (CLRF ++ CLRF) (CLRF ++ CLRF ++ body) = 1 := by
  have h0 := occurrences_eq_zero _ _ hb
  have h1 : HasPrefix (CLRF ++ CLRF ++ body) (CLRF ++ CLRF) = true := HasPrefix_append _ _
  have e1 : CLRF ++ CLRF ++ body = 13 :: 10 :: (CLRF ++ body) := rfl
  have e2 : CLRF ++ CLRF = (13 : Byte) :: [10, 13, 10] := rfl
  rw [e1] at h1 ⊢
  rw [occurrences_cons, h1, occurrences_cons, h0]
  rw [e2, HasPrefix_cons_head_ne 10 13 _ _ (by decide)]
  rfl

theorem fmtInteger_natCast_digits (n : Nat) : ∀ c ∈ fmtInteger (n : Int), isDigit c = true := by
  have h := isIntNumeral_fmtInteger (n : Int)
  have hn : ¬ ((n : Int) < 0) := by omega
  simp only [isIntNumeral, if_neg hn, isNatNumeral, Bool.and_eq_true, List.all_eq_true] at h
  exact h.1.1.2

theorem isDigit_not_mem_blank (c : Byte) (h : isDigit c = true) : c ∉ CLRF ++ CLRF := by
  intro hc
  have h4 : c = 13 ∨ c = 10 := by
    have e2 : CLRF ++ CLRF = (13 : Byte) :: [10, 13, 10] := rfl
    rw [e2] at hc
    simp only [List.mem_cons, List.mem_singleton, List.not_mem_nil, or_false] at hc
    tauto
  rcases h4 with rfl | rfl <;> revert h <;> decide

/-- The four routes of `Parse` give two status lines; the other fields are uniform. -/
theorem Parse_fields (r : Request) :
    (Parse r).Version = r.Version ∧ (Parse r).ContentType = ascii "text/plain" ∧
      (Parse r).ContentLength = ((Parse r).Message.length : Int) ∧
      (((Parse r).StatusCode = 200 ∧ (Parse r).StatusMessage = ascii "OK") ∨
        ((Parse r).StatusCode = 404 ∧ (Parse r).StatusMessage = ascii "Not Found")) := by
  unfold Parse
  split_ifs <;> simp [handleEcho, handleUserAgent, ascii]

/-- The bytes between the version and the Content-Length value of a response of `Parse`. -/
theorem occurrences_status_headers (code : Int) (msg : Str)
    (h : (code = 200 ∧ msg = ascii "OK") ∨ (code = 404 ∧ msg = ascii "Not Found")) :
    occurrences (CLRF ++ CLRF)
      (fmtInteger code ++ ascii " " ++ msg ++ CLRF ++ ascii "Content-Type: " ++ ascii "text/plain"
        ++ CLRF ++ ascii "Content-Length:") = 0 := by
  rcases h with ⟨rfl, rfl⟩ | ⟨rfl, rfl⟩ <;> decide

/-- The framing of a serialised response of the router, for a request whose version does not
contain CRLF CRLF and whose response body neither begins with CRLF nor contains CRLF CRLF:
the bytes start with "<version> <code> <message>" and CRLF, contain exactly one occurrence of
CRLF CRLF, and end with the header line "Content-Length: " followed by the decimal byte length
of the body, that blank line, and the body. -/
theorem serialize_route (r : Request)
    (hv : Contains r.Version (CLRF ++ CLRF) = false)
    (hb : Contains (CLRF ++ (Parse r).Message) (CLRF ++ CLRF) = false) :
    ∃ out, WriteResponse (Parse r) = some out ∧
      (r.Version ++ ascii " " ++ fmtInteger (Parse r).StatusCode ++ ascii " "
          ++ (Parse r).StatusMessage ++ CLRF) <+: out ∧
      occurrences (CLRF ++ CLRF) out = 1 ∧
      (CLRF ++ ascii "Content-Length: " ++ fmtInteger ((Parse r).Message.length : Int)
          ++ CLRF ++ CLRF ++ (Parse r).Message) <:+ out := by
  obtain ⟨hver, hct, hcl, hstatus⟩ := Parse_fields r
  refine ⟨_, WriteResponse_eq (Parse r), ?_, ?_, ?_⟩
  · rw [hver]
    simp only [List.append_assoc]
    repeat (first | exact List.prefix_append _ _ | rw [List.prefix_append_right_inj])
  · rw [hver, hct, hcl]
    have hP : CLRF ++ CLRF ≠ ([] : Str) := by decide
    have hsp : (32 : Byte) ∉ CLRF ++ CLRF := by decide
    have e : r.Version ++ ascii " " ++ fmtInteger (Parse r).StatusCode ++ ascii " "
          ++ (Parse r).StatusMessage ++ CLRF ++ ascii "Content-Type: " ++ ascii "text/plain"
          ++ CLRF ++ ascii "Content-Length: " ++ fmtInteger ((Parse r).Message.length : Int)
          ++ CLRF ++ CLRF ++ (Parse r).Message
        = r.Version ++ 32 :: ((fmtInteger (Parse r).StatusCode ++ ascii " "
          ++ (Parse r).StatusMessage ++ CLRF ++ ascii "Content-Type: " ++ ascii "text/plain"
          ++ CLRF ++ ascii "Content-Length:") ++ 32 ::
            (fmtInteger ((Parse r).Message.length : Int)
              ++ (CLRF ++ CLRF ++ (Parse r).Message))) := by
      have e1 : ascii " " = [(32 : Byte)] := rfl
      have e2 : ascii "Content-Length: " = ascii "Content-Length:" ++ [(32 : Byte)] := rfl
      rw [e1, e2]
      simp only [List.append_assoc, List.singleton_append, List.cons_append, List.nil_append]
    rw [e, occurrences_append_sep _ _ _ hsp hP, occurrences_append_sep _ _ _ hsp hP,
      occurrences_eq_zero _ _ hv, occurrences_status_headers _ _ hstatus,
      occurrences_skip _ _ hP _
        (fun c hc => isDigit_not_mem_blank c (fmtInteger_natCast_digits _ c hc)),
      occurrences_blank_line _ hb]
  · rw [hcl]
    exact ⟨r.Version ++ ascii " " ++ fmtInteger (Parse r).StatusCode ++ ascii " "
      ++ (Parse r).StatusMessage ++ CLRF ++ ascii "Content-Type: " ++ (Parse r).ContentType,
      by rw [hver]; simp only [List.append_assoc]⟩

/-! ## The request parser -/

theorem readLines_append_line (s : Str) :
    ∀ l : Str, (10 : Byte) ∉ l → readLines (l ++ 10 :: s) = (l ++ [10]) :: readLines s := by
  intro l
  induction l with
  | nil => intro _; simp [readLines]
  | cons c l ih =>
    intro h
    have hc : c ≠ 10 := fun e => h (by simp [e])
    have hl : (10 : Byte) ∉ l := fun e => h (List.mem_cons_of_mem _ e)
    rw [List.cons_append, readLines, if_neg hc, ih hl]
    rfl

theorem Split_append_sep (sep : Byte) (b : Str) :
    ∀ a : Str, sep ∉ a → Split (a ++ sep :: b) sep = a :: Split b sep := by
  intro a
  induction a with
  | nil => intro _; simp [Split]
  | cons c a ih =>
    intro h
    have hc : c ≠ sep := fun e => h (by simp [e])
    have ha : sep ∉ a := fun e => h (List.mem_cons_of_mem _ e)
    rw [List.cons_append, Split, if_neg hc, ih ha]

theorem Split_of_mem (sep : Byte) :
    ∀ s : Str, sep ∈ s → ∃ f g fs, Split s sep = f :: g :: fs := by
  intro s
  induction s with
  | nil => intro h; simp at h
  | cons c t ih =>
    intro h
    by_cases hc : c = sep
    · rw [Split, if_pos hc]
      cases t with
      | nil => exact ⟨[], [], [], rfl⟩
      | cons d t =>
        rw [Split]
        by_cases hd : d = sep
        · rw [if_pos hd]; exact ⟨_, _, _, rfl⟩
        · rw [if_neg hd]
          cases Split t sep <;> exact ⟨_, _, _, rfl⟩
    · have ht : sep ∈ t := by
        rcases List.mem_cons.mp h with e | e
        · exact absurd e.symm hc
        · exact e
      obtain ⟨f, g, fs, hfg⟩ := ih ht
      rw [Split, if_neg hc, hfg]
      exact ⟨_, _, _, rfl⟩

/-- A line that holds a space and does not contain "HTTP/1.1" leaves `httpReq` as it is and
does not panic. -/
theorem processLine_header (q : HttpRequest) (h : RequestHeaders) (line : Str)
    (hsp : SP ∈ line) (hno : Contains line (ascii "HTTP/1.1") = false) :
    ∃ h', processLine (q, h) line = some (q, h') := by
  obtain ⟨f, g, fs, hfg⟩ := Split_of_mem SP line hsp
  by_cases h1 : HasPrefix line (ascii "User-Agent:") = true <;>
    by_cases h2 : HasPrefix line (ascii "Host:") = true <;>
    simp [processLine, h1, h2, hfg, hno]

theorem isToken_not_mem (s : Str) (h : isToken s = true) :
    (32 : Byte) ∉ s ∧ (10 : Byte) ∉ s := by
  simp only [isToken, Bool.and_eq_true, List.all_eq_true, bne_iff_ne, ne_eq] at h
  exact ⟨fun hc => (h.2 _ hc).1.1 rfl, fun hc => (h.2 _ hc).2 rfl⟩

theorem Split_requestLine (M T : Str) (hM : (32 : Byte) ∉ M) (hT : (32 : Byte) ∉ T) :
    Split (requestLine M T) SP = [M, T, ascii "HTTP/1.1\r\n"] := by
  have e : requestLine M T = M ++ SP :: (T ++ SP :: ascii "HTTP/1.1\r\n") := by
    simp [requestLine, ascii, SP, ofNat_lit]
  rw [e, Split_append_sep SP _ M hM, Split_append_sep SP _ T hT]
  rfl

/-- The request line sets the three fields of `httpReq` and does not panic. -/
theorem processLine_requestLine (q : HttpRequest) (h : RequestHeaders) (M T : Str)
    (hM : (32 : Byte) ∉ M) (hT : (32 : Byte) ∉ T) :
    ∃ h', processLine (q, h) (requestLine M T) = some (⟨M, T, ascii "HTTP/1.1"⟩, h') := by
  have hc : Contains (requestLine M T) (ascii "HTTP/1.1") = true := by
    have e : requestLine M T = (M ++ ascii " " ++ T ++ ascii " ") ++ ascii "HTTP/1.1" ++ CLRF := by
      simp [requestLine, ascii, CLRF, ofNat_lit]
    rw [e]
    exact Contains_append _ _ _
  have ht : TrimSuffix (ascii "HTTP/1.1\r\n") CLRF = ascii "HTTP/1.1" := by decide
  by_cases h1 : HasPrefix (requestLine M T) (ascii "User-Agent:") = true <;>
    by_cases h2 : HasPrefix (requestLine M T) (ascii "Host:") = true <;>
    simp [processLine, h1, h2, Split_requestLine M T hM hT, hc, ht]

theorem headerLine_eq (name value : Str) :
    headerLine name value = (name ++ 58 :: 32 :: value ++ [13]) ++ 10 :: [] := by
  simp [headerLine, ascii, CLRF, ofNat_lit]

theorem readLines_headerLines (s : Str) :
    ∀ hs : List (Str × Str), (∀ nv ∈ hs, (10 : Byte) ∉ nv.1 ∧ (10 : Byte) ∉ nv.2) →
      readLines (headerLines hs ++ s)
        = hs.map (fun nv => headerLine nv.1 nv.2) ++ readLines s := by
  intro hs
  induction hs with
  | nil => intro _; rfl
  | cons nv hs ih =>
    intro h
    obtain ⟨h1, h2⟩ := h nv (List.mem_cons_self _ _)
    have hl : (10 : Byte) ∉ nv.1 ++ 58 :: 32 :: nv.2 ++ [13] := by
      simp only [List.mem_append, List.mem_cons, List.mem_singleton, List.not_mem_nil,
        not_or]
      refine ⟨⟨h1, by decide, by decide, h2⟩, by decide, not_false⟩
    have e : headerLines (nv :: hs) ++ s
        = (nv.1 ++ 58 :: 32 :: nv.2 ++ [13]) ++ 10 :: (headerLines hs ++ s) := by
      rw [headerLines, headerLine_eq]
      simp only [List.append_assoc, List.cons_append, List.nil_append]
    rw [e, readLines_append_line _ _ hl, ih (fun x hx => h x (List.mem_cons_of_mem _ hx)),
      List.map_cons, headerLine_eq]
    rfl

/-- Header lines that do not contain "HTTP/1.1", followed by the blank line: the loop ends
without a panic and with `httpReq` as it was. -/
theorem requestLoop_headers (more : List Str) :
    ∀ (hs : List (Str × Str)) (q : HttpRequest) (h : RequestHeaders),
      (∀ nv ∈ hs, Contains (headerLine nv.1 nv.2) (ascii "HTTP/1.1") = false) →
      ∃ h', requestLoop (q, h) (hs.map (fun nv => headerLine nv.1 nv.2) ++ CLRF :: more)
        = some (q, h') := by
  intro hs
  induction hs with
  | nil =>
    intro q h _
    exact ⟨h, by simp [requestLoop]⟩
  | cons nv hs ih =>
    intro q h hno
    have hsp : SP ∈ headerLine nv.1 nv.2 := by
      rw [headerLine_eq]
      simp [SP]
    have hne : headerLine nv.1 nv.2 ≠ CLRF := by
      intro e
      rw [e] at hsp
      revert hsp
      decide
    obtain ⟨h1, hp⟩ := processLine_header q h _ hsp (hno nv (List.mem_cons_self _ _))
    obtain ⟨h2, hl⟩ := ih q h1 (fun x hx => hno x (List.mem_cons_of_mem _ hx))
    refine ⟨h2, ?_⟩
    rw [List.map_cons, List.cons_append, requestLoop, if_neg hne, hp]
    exact hl

/-- C10, as stated, fails: in the conformant stream "GET / HTTP/1.1\r\n",
"Via: HTTP/1.1 proxy\r\n", "\r\n" the header line contains "HTTP/1.1" too, so it is taken for
a request line and NewRequest returns method "Via:", target "HTTP/1.1" and version "proxy". -/
theorem NewRequest_conformant_counterexample :
    isToken (ascii "GET") = true ∧ isToken (ascii "/") = true ∧
      (10 : Byte) ∉ ascii "Via" ∧ (10 : Byte) ∉ ascii "HTTP/1.1 proxy" ∧
      NewRequest (requestLine (ascii "GET") (ascii "/")
          ++ headerLines [(ascii "Via", ascii "HTTP/1.1 proxy")] ++ CLRF)
        = some ⟨⟨ascii "Via:", ascii "HTTP/1.1", ascii "proxy"⟩, ⟨[], []⟩, [], ascii "*/*"⟩ := by
  decide

/-- C10, amended: for every stream made of a first line "M T HTTP/1.1\r\n" with M and T
non-empty and free of space, CR and LF, then any number of header lines "Name: value\r\n"
none of which contains "HTTP/1.1" (names and values free of LF), then the blank line (and
anything after it), NewRequest returns a request with method M, target T and version
"HTTP/1.1": the line found by the substring test is the first line, and no later line sets
or changes these three fields. -/
theorem NewRequest_conformant (M T : Str) (hs : List (Str × Str)) (rest : Str)
    (hM : isToken M = true) (hT : isToken T = true)
    (hh : ∀ nv ∈ hs, (10 : Byte) ∉ nv.1 ∧ (10 : Byte) ∉ nv.2 ∧
      Contains (headerLine nv.1 nv.2) (ascii "HTTP/1.1") = false) :
    ∃ r, NewRequest (requestLine M T ++ headerLines hs ++ CLRF ++ rest) = some r ∧
      r.Method = M ∧ r.Target = T ∧ r.Version = ascii "HTTP/1.1" := by
  obtain ⟨hMsp, hMlf⟩ := isToken_not_mem M hM
  obtain ⟨hTsp, hTlf⟩ := isToken_not_mem T hT
  have hl : (10 : Byte) ∉ M ++ 32 :: T ++ ascii " HTTP/1.1\r" := by
    simp only [List.mem_append, List.mem_cons, not_or]
    exact ⟨⟨hMlf, by decide, hTlf⟩, by decide⟩
  have e : requestLine M T ++ headerLines hs ++ CLRF ++ rest
      = (M ++ 32 :: T ++ ascii " HTTP/1.1\r") ++ 10 :: (headerLines hs ++ (13 :: 10 :: rest)) := by
    simp [requestLine, ascii, CLRF, ofNat_lit]
  have e2 : (M ++ 32 :: T ++ ascii " HTTP/1.1\r") ++ [10] = requestLine M T := by
    simp [requestLine, ascii, ofNat_lit]
  have e3 : readLines (13 :: 10 :: rest) = CLRF :: readLines rest := by
    simp [readLines, CLRF, ascii, ofNat_lit]
  have hne : requestLine M T ≠ CLRF := by
    intro ec
    have := congrArg List.length ec
    simp [requestLine, ascii, CLRF] at this
    omega
  obtain ⟨h1, hp⟩ := processLine_requestLine ⟨[], [], []⟩ ⟨[], []⟩ M T hMsp hTsp
  obtain ⟨h2, hloop⟩ := requestLoop_headers (readLines rest) hs ⟨M, T, ascii "HTTP/1.1"⟩ h1
    (fun nv hnv => (hh nv hnv).2.2)
  refine ⟨⟨⟨M, T, ascii "HTTP/1.1"⟩, h2, [], ascii "*/*"⟩, ?_, rfl, rfl, rfl⟩
  rw [NewRequest, e, readLines_append_line _ _ hl, e2,
    readLines_headerLines _ hs (fun nv hnv => ⟨(hh nv hnv).1, (hh nv hnv).2.1⟩), e3,
    requestLoop, if_neg hne, hp]
  simp only [hloop]

theorem NewRequest_conformant_witness :
    isToken (ascii "GET") = true ∧ isToken (ascii "/echo/abc") = true ∧
      (∀ nv ∈ [(ascii "Host", ascii "localhost:4221"), (ascii "User-Agent", ascii "curl/8.1")],
        (10 : Byte) ∉ nv.1 ∧ (10 : Byte) ∉ nv.2 ∧
          Contains (headerLine nv.1 nv.2) (ascii "HTTP/1.1") = false) ∧
      ∃ r, NewRequest (requestLine (ascii "GET") (ascii "/echo/abc")
          ++ headerLines [(ascii "Host", ascii "localhost:4221"),
            (ascii "User-Agent", ascii "curl/8.1")] ++ CLRF ++ ascii "body") = some r ∧
        r.Method = ascii "GET" ∧ r.Target = ascii "/echo/abc" ∧ r.Version = ascii "HTTP/1.1" :=
  ⟨by decide, by decide, by decide,
    NewRequest_conformant (ascii "GET") (ascii "/echo/abc")
      [(ascii "Host", ascii "localhost:4221"), (ascii "User-Agent", ascii "curl/8.1")]
      (ascii "body") (by decide) (by decide) (by decide)⟩

/-- C9: the code does not treat a "Host:" line without a second field as ignorable: on the
stream "GET / HTTP/1.1\r\n", "Host:\r\n", "\r\n" the index expression
`strings.Split(line, " ")[1]` is out of range and NewRequest panics. -/
theorem NewRequest_short_header_panics :
    HasPrefix (ascii "Host:\r\n") (ascii "Host:") = true ∧
      (Split (ascii "Host:\r\n") SP).length = 1 ∧
      NewRequest (ascii "GET / HTTP/1.1\r\nHost:\r\n\r\n") = none := by
  decide

/-! ## The serialiser -/

/-- C5: for every Response value, WriteResponse returns (it never fails) exactly the bytes of
the version, a space, the status code, a space, the status message, CRLF, "Content-Type: " and
the content type, CRLF, "Content-Length: " and the content length, CRLF, CRLF and the body,
with nothing after the body; the status code and the content length are written as decimal
numerals without leading zeros. -/
theorem WriteResponse_layout (resp : Response) :
    WriteResponse resp
        = some (resp.Version ++ ascii " " ++ fmtInteger resp.StatusCode ++ ascii " "
            ++ resp.StatusMessage ++ CLRF ++ ascii "Content-Type: " ++ resp.ContentType ++ CLRF
            ++ ascii "Content-Length: " ++ fmtInteger resp.ContentLength ++ CLRF ++ CLRF
            ++ resp.Message) ∧
      isIntNumeral (fmtInteger resp.StatusCode) resp.StatusCode = true ∧
      isIntNumeral (fmtInteger resp.ContentLength) resp.ContentLength = true :=
  ⟨WriteResponse_eq resp, isIntNumeral_fmtInteger _, isIntNumeral_fmtInteger _⟩

/-! ## The request parser, line by line -/

theorem Split_length (sep : Byte) : ∀ s : Str, (Split s sep).length = s.count sep + 1 := by
  intro s
  induction s with
  | nil => rfl
  | cons c t ih =>
    rw [Split]
    by_cases hc : c = sep
    · rw [if_pos hc, List.length_cons, ih, hc, List.count_cons_self]
    · rw [if_neg hc, List.count_cons_of_ne (Ne.symm hc)]
      cases hs : Split t sep with
      | nil => rw [hs] at ih; simp at ih
      | cons f fs => rw [hs] at ih; simpa using ih

theorem exists_two_fields (l : List Str) (h : 2 ≤ l.length) : ∃ f g fs, l = f :: g :: fs := by
  match l, h with
  | f :: g :: fs, _ => exact ⟨f, g, fs, rfl⟩

/-- What the body of the loop does on a line with at least two fields that does not contain
"HTTP/1.1". -/
theorem processLine_fields (q : HttpRequest) (h : RequestHeaders) (line : Str)
    (hno : Contains line (ascii "HTTP/1.1") = false) (hlen : 2 ≤ (Split line SP).length) :
    processLine (q, h) line
      = some (q,
          { Host := if HasPrefix line (ascii "Host:") then (Split line SP).getD 1 [] else h.Host,
            UserAgent := if HasPrefix line (ascii "User-Agent:") then (Split line SP).getD 1 []
              else h.UserAgent }) := by
  obtain ⟨f, g, fs, hfg⟩ := exists_two_fields _ hlen
  by_cases hu : HasPrefix line (ascii "User-Agent:") = true <;>
    by_cases hh : HasPrefix line (ascii "Host:") = true <;>
    simp [processLine, hu, hh, hno, hfg]

theorem HasPrefix_exclusive (line : Str) (hu : HasPrefix line (ascii "User-Agent:") = true) :
    HasPrefix line (ascii "Host:") = false := by
  rw [Bool.eq_false_iff]
  intro hh
  rw [HasPrefix_iff] at hu hh
  cases line with
  | nil => simp [ascii] at hu
  | cons c t =>
    have e1 : ascii "User-Agent:" = (85 : Byte) :: ascii "ser-Agent:" := rfl
    have e2 : ascii "Host:" = (72 : Byte) :: ascii "ost:" := rfl
    rw [e1] at hu
    rw [e2] at hh
    have a := (List.cons_prefix_cons.mp hu).1
    have b := (List.cons_prefix_cons.mp hh).1
    rw [← a] at b
    revert b
    decide

theorem ne_CLRF_of_HasPrefix (line pre : Str) (h : HasPrefix line pre = true)
    (hp : HasPrefix CLRF pre = false) : line ≠ CLRF := by
  intro e
  rw [e, hp] at h
  exact Bool.false_ne_true h

/-- C11: a line that begins with "User-Agent:" (respectively "Host:"), does not contain
"HTTP/1.1" and has at least two fields when split on the space character stores its second
field, verbatim and untrimmed, in UserAgent (respectively Host), and the loop goes on with
every other field of the request unchanged. -/
theorem requestLoop_stores_header (q : HttpRequest) (h : RequestHeaders) (line : Str)
    (rest : List Str) (hno : Contains line (ascii "HTTP/1.1") = false)
    (hlen : 2 ≤ (Split line SP).length) :
    (HasPrefix line (ascii "User-Agent:") = true →
        requestLoop (q, h) (line :: rest)
          = requestLoop (q, { h with UserAgent := (Split line SP).getD 1 [] }) rest) ∧
      (HasPrefix line (ascii "Host:") = true →
        requestLoop (q, h) (line :: rest)
          = requestLoop (q, { h with Host := (Split line SP).getD 1 [] }) rest) := by
  constructor
  · intro hu
    have hh := HasPrefix_exclusive line hu
    have hne := ne_CLRF_of_HasPrefix line _ hu (by decide)
    rw [requestLoop, if_neg hne, processLine_fields q h line hno hlen, hu, hh]
    rfl
  · intro hh
    have hu : HasPrefix line (ascii "User-Agent:") = false := by
      rw [Bool.eq_false_iff]
      intro hu
      rw [HasPrefix_exclusive line hu] at hh
      exact Bool.false_ne_true hh
    have hne := ne_CLRF_of_HasPrefix line _ hh (by decide)
    rw [requestLoop, if_neg hne, processLine_fields q h line hno hlen, hu, hh]
    rfl

theorem requestLoop_stores_header_witness :
    Contains (ascii "User-Agent: curl/8.1\r\n") (ascii "HTTP/1.1") = false ∧
      2 ≤ (Split (ascii "User-Agent: curl/8.1\r\n") SP).length ∧
      HasPrefix (ascii "User-Agent: curl/8.1\r\n") (ascii "User-Agent:") = true ∧
      (Split (ascii "User-Agent: curl/8.1\r\n") SP).getD 1 [] = ascii "curl/8.1\r\n" ∧
      requestLoop (⟨ascii "GET", ascii "/", ascii "HTTP/1.1"⟩, ⟨ascii "h", []⟩)
          [ascii "User-Agent: curl/8.1\r\n", CLRF]
        = requestLoop (⟨ascii "GET", ascii "/", ascii "HTTP/1.1"⟩,
            { Host := ascii "h",
              UserAgent := (Split (ascii "User-Agent: curl/8.1\r\n") SP).getD 1 [] }) [CLRF] :=
  ⟨by decide, by decide, by decide, by decide,
    (requestLoop_stores_header ⟨ascii "GET", ascii "/", ascii "HTTP/1.1"⟩ ⟨ascii "h", []⟩
      (ascii "User-Agent: curl/8.1\r\n") [CLRF] (by decide) (by decide)).1 (by decide)⟩

theorem isLine_iff (l : Str) : isLine l = true ↔ ∃ body, l = body ++ [10] ∧ (10 : Byte) ∉ body := by
  unfold isLine
  constructor
  · intro h
    cases hr : l.reverse with
    | nil => rw [hr] at h; exact absurd h (by simp)
    | cons c t =>
      rw [hr] at h
      simp only [Bool.and_eq_true, beq_iff_eq, Bool.not_eq_true', List.contains_eq_any_beq,
        List.any_eq_false, beq_iff_eq] at h
      refine ⟨t.reverse, ?_, ?_⟩
      · have := congrArg List.reverse hr
        rw [List.reverse_reverse, List.reverse_cons, h.1] at this
        exact this
      · intro hm
        exact h.2 10 (List.mem_reverse.mp hm) rfl
  · rintro ⟨body, rfl, hb⟩
    have hb' : (10 : Byte) ∉ body.reverse := fun hm => hb (List.mem_reverse.mp hm)
    simp [hb']

theorem readLines_streamOf (s : Str) :
    ∀ ls : List Str, (∀ l ∈ ls, isLine l = true) →
      readLines (streamOf ls ++ s) = ls ++ readLines s := by
  intro ls
  induction ls with
  | nil => intro _; rfl
  | cons l ls ih =>
    intro h
    obtain ⟨body, rfl, hb⟩ := (isLine_iff l).1 (h l (List.mem_cons_self _ _))
    have e : streamOf ((body ++ [10]) :: ls) ++ s = body ++ 10 :: (streamOf ls ++ s) := by
      simp [streamOf]
    rw [e, readLines_append_line _ _ hb, ih (fun x hx => h x (List.mem_cons_of_mem _ hx))]
    rfl

theorem readLines_streamOf_nil (ls : List Str) (h : ∀ l ∈ ls, isLine l = true) :
    readLines (streamOf ls) = ls := by
  have := readLines_streamOf [] ls h
  simpa [readLines] using this

theorem readLines_CLRF (s : Str) : readLines (CLRF ++ s) = CLRF :: readLines s := by
  have := readLines_append_line s [13] (by decide)
  exact this

theorem requestLoop_blank (more : List Str) :
    ∀ (pre : List Str) (st : HttpRequest × RequestHeaders),
      requestLoop st (pre ++ CLRF :: more) = requestLoop st pre := by
  intro pre
  induction pre with
  | nil => intro st; simp [requestLoop]
  | cons l pre ih =>
    intro st
    rw [List.cons_append, requestLoop, requestLoop]
    by_cases hl : l = CLRF
    · rw [if_pos hl, if_pos hl]
    · rw [if_neg hl, if_neg hl]
      cases processLine st l with
      | none => rfl
      | some st' => exact ih st'

/-- C12: parsing stops at the first blank line: for every sequence of lines pre and all bytes
post, NewRequest on pre, the blank line and post gives what NewRequest gives on pre followed
by the end of the stream (the same request, or a panic in both); nothing after the blank line
is read. -/
theorem NewRequest_stops_at_blank (pre : List Str) (post : Str)
    (hpre : ∀ l ∈ pre, isLine l = true) :
    NewRequest (streamOf pre ++ CLRF ++ post) = NewRequest (streamOf pre) := by
  rw [NewRequest, NewRequest, List.append_assoc, readLines_streamOf _ pre hpre, readLines_CLRF,
    readLines_streamOf_nil pre hpre, requestLoop_blank]

theorem NewRequest_stops_at_blank_witness :
    (∀ l ∈ [ascii "GET /echo/abc HTTP/1.1\r\n", ascii "Host: a\r\n"], isLine l = true) ∧
      NewRequest (streamOf [ascii "GET /echo/abc HTTP/1.1\r\n", ascii "Host: a\r\n"] ++ CLRF
          ++ ascii "Host:\r\nGET / HTTP/1.1\r\n")
        = NewRequest (streamOf [ascii "GET /echo/abc HTTP/1.1\r\n", ascii "Host: a\r\n"]) ∧
      NewRequest (streamOf [ascii "GET /echo/abc HTTP/1.1\r\n", ascii "Host: a\r\n"])
        = some ⟨⟨ascii "GET", ascii "/echo/abc", ascii "HTTP/1.1"⟩, ⟨ascii "a\r\n", []⟩, [],
            ascii "*/*"⟩ :=
  ⟨by decide,
    NewRequest_stops_at_blank [ascii "GET /echo/abc HTTP/1.1\r\n", ascii "Host: a\r\n"]
      (ascii "Host:\r\nGET / HTTP/1.1\r\n") (by decide),
    by decide⟩

theorem processLine_ignored (st : HttpRequest × RequestHeaders) (l : Str)
    (hno : Contains l (ascii "HTTP/1.1") = false)
    (hu : HasPrefix l (ascii "User-Agent:") = false)
    (hh : HasPrefix l (ascii "Host:") = false) : processLine st l = some st := by
  simp [processLine, hno, hu, hh]

theorem requestLoop_insert_ignored (l : Str) (more : List Str)
    (hno : Contains l (ascii "HTTP/1.1") = false)
    (hu : HasPrefix l (ascii "User-Agent:") = false)
    (hh : HasPrefix l (ascii "Host:") = false) (hne : l ≠ CLRF) :
    ∀ (pre : List Str) (st : HttpRequest × RequestHeaders),
      requestLoop st (pre ++ l :: more) = requestLoop st (pre ++ more) := by
  intro pre
  induction pre with
  | nil =>
    intro st
    rw [List.nil_append, List.nil_append, requestLoop, if_neg hne,
      processLine_ignored st l hno hu hh]
  | cons x pre ih =>
    intro st
    rw [List.cons_append, List.cons_append, requestLoop, requestLoop]
    by_cases hx : x = CLRF
    · rw [if_pos hx, if_pos hx]
    · rw [if_neg hx, if_neg hx]
      cases processLine st x with
      | none => rfl
      | some st' => exact ih st'

/-- C13: a line that is not the blank line, does not contain "HTTP/1.1" and does not begin
with "User-Agent:" or "Host:" is ignored: inserting it after any sequence of lines of a stream
changes nothing in what NewRequest returns. -/
theorem NewRequest_ignores_line (pre : List Str) (l rest : Str)
    (hpre : ∀ x ∈ pre, isLine x = true) (hl : isLine l = true) (hne : l ≠ CLRF)
    (hno : Contains l (ascii "HTTP/1.1") = false)
    (hu : HasPrefix l (ascii "User-Agent:") = false)
    (hh : HasPrefix l (ascii "Host:") = false) :
    NewRequest (streamOf pre ++ l ++ rest) = NewRequest (streamOf pre ++ rest) := by
  have e : streamOf pre ++ l ++ rest = streamOf pre ++ (streamOf [l] ++ rest) := by
    simp [streamOf]
  have hl1 : ∀ x ∈ [l], isLine x = true := by
    intro x hx
    rw [List.mem_singleton.mp hx]
    exact hl
  rw [NewRequest, NewRequest, e, readLines_streamOf _ pre hpre, readLines_streamOf _ [l] hl1,
    readLines_streamOf _ pre hpre, List.singleton_append,
    requestLoop_insert_ignored l _ hno hu hh hne]

theorem NewRequest_ignores_line_witness :
    (∀ x ∈ [ascii "GET /user-agent HTTP/1.1\r\n"], isLine x = true) ∧
      isLine (ascii "Accept: */*\r\n") = true ∧ ascii "Accept: */*\r\n" ≠ CLRF ∧
      Contains (ascii "Accept: */*\r\n") (ascii "HTTP/1.1") = false ∧
      HasPrefix (ascii "Accept: */*\r\n") (ascii "User-Agent:") = false ∧
      HasPrefix (ascii "Accept: */*\r\n") (ascii "Host:") = false ∧
      NewRequest (streamOf [ascii "GET /user-agent HTTP/1.1\r\n"] ++ ascii "Accept: */*\r\n"
          ++ ascii "User-Agent: curl/8.1\r\n\r\n")
        = NewRequest (streamOf [ascii "GET /user-agent HTTP/1.1\r\n"]
          ++ ascii "User-Agent: curl/8.1\r\n\r\n") :=
  ⟨by decide, by decide, by decide, by decide, by decide, by decide,
    NewRequest_ignores_line [ascii "GET /user-agent HTTP/1.1\r\n"] (ascii "Accept: */*\r\n")
      (ascii "User-Agent: curl/8.1\r\n\r\n") (by decide) (by decide) (by decide) (by decide)
      (by decide) (by decide)⟩

/-- The body of the loop, as a function of the three tests and the fields of the line. -/
theorem processLine_isSome (st : HttpRequest × RequestHeaders) (line : Str) :
    (processLine st line).isSome = lineSafe line := by
  have hl := Split_length SP line
  unfold lineSafe
  cases hs : Split line SP with
  | nil => rw [hs] at hl; simp at hl
  | cons f fs =>
    rw [hs] at hl
    cases fs with
    | nil =>
      have h0 : line.count SP = 0 := by simpa using hl.symm
      by_cases hu : HasPrefix line (ascii "User-Agent:") = true <;>
        by_cases hh : HasPrefix line (ascii "Host:") = true <;>
        by_cases hc : Contains line (ascii "HTTP/1.1") = true <;>
        simp [processLine, hu, hh, hc, hs, h0]
    | cons g gs =>
      cases gs with
      | nil =>
        have h1 : line.count SP = 1 := by simpa using hl.symm
        by_cases hu : HasPrefix line (ascii "User-Agent:") = true <;>
          by_cases hh : HasPrefix line (ascii "Host:") = true <;>
          by_cases hc : Contains line (ascii "HTTP/1.1") = true <;>
          simp [processLine, hu, hh, hc, hs, h1]
      | cons k ks =>
        have h1 : 1 ≤ line.count SP := by simp at hl; omega
        have h2 : 2 ≤ line.count SP := by simp at hl; omega
        by_cases hu : HasPrefix line (ascii "User-Agent:") = true <;>
          by_cases hh : HasPrefix line (ascii "Host:") = true <;>
          by_cases hc : Contains line (ascii "HTTP/1.1") = true <;>
          simp [processLine, hu, hh, hc, hs, h1, h2]

theorem requestLoop_isSome :
    ∀ (lines : List Str) (st : HttpRequest × RequestHeaders),
      (requestLoop st lines).isSome = true
        ↔ ∀ line ∈ lines.takeWhile (fun l => l != CLRF), lineSafe line = true := by
  intro lines
  induction lines with
  | nil => intro st; simp [requestLoop]
  | cons l lines ih =>
    intro st
    rw [requestLoop]
    by_cases hl : l = CLRF
    · simp [hl]
    · have hb : (l != CLRF) = true := by simpa using hl
      rw [if_neg hl, List.takeWhile_cons, if_pos hb]
      have hp := processLine_isSome st l
      cases hpl : processLine st l with
      | none =>
        rw [hpl] at hp
        simp only [Option.isSome_none] at hp
        simp [← hp]
      | some st' =>
        rw [hpl] at hp
        simp only [Option.isSome_some] at hp
        simp only [List.mem_cons, forall_eq_or_imp, ← hp, true_and]
        exact ih st'

/-- C20: NewRequest completes without an index out of range exactly when every line read
before the first blank line (or before the end of the stream when there is none) holds at
least one space if it begins with "User-Agent:" or "Host:" and at least two spaces if it
contains "HTTP/1.1"; the lines after the first blank line play no part. -/
theorem NewRequest_completes_iff (conn : Str) :
    (NewRequest conn).isSome = true
      ↔ ∀ line ∈ (readLines conn).takeWhile (fun l => l != CLRF), lineSafe line = true := by
  rw [← requestLoop_isSome (readLines conn) (⟨[], [], []⟩, ⟨[], []⟩), NewRequest]
  cases requestLoop (⟨[], [], []⟩, ⟨[], []⟩) (readLines conn) with
  | none => rfl
  | some st => rfl

/-- C18: a target that contains "/echo/" without starting with it takes the echo route: the
response is 200 "OK", the body is the whole target and contentLength its byte length; the body
is not what follows an occurrence of "/echo/" in the target. -/
theorem Parse_echo_inside (r : Request)
    (hc : Contains r.Target (ascii "/echo/") = true)
    (hp : HasPrefix r.Target (ascii "/echo/") = false) :
    (Parse r).StatusCode = 200 ∧ (Parse r).StatusMessage = ascii "OK" ∧
      (Parse r).Message = r.Target ∧ (Parse r).ContentLength = (r.Target.length : Int) ∧
      ∀ pre suf : Str, r.Target = pre ++ ascii "/echo/" ++ suf → (Parse r).Message ≠ suf := by
  have hne : r.Target ≠ ascii "/" := by
    intro e
    rw [e] at hc
    revert hc
    decide
  have hm : (Parse r).Message = r.Target := by
    rw [Parse, if_neg hne, if_pos hc, handleEcho, TrimPrefix, hp]
    rfl
  refine ⟨?_, ?_, hm, ?_, ?_⟩
  · rw [Parse, if_neg hne, if_pos hc]; rfl
  · rw [Parse, if_neg hne, if_pos hc]; rfl
  · rw [Parse, if_neg hne, if_pos hc, handleEcho, TrimPrefix, hp]
    rfl
  · intro pre suf e hs
    rw [hm] at hs
    have := congrArg List.length e
    rw [hs] at this
    simp [ascii] at this
    omega

theorem Parse_echo_inside_witness :
    Contains (ascii "/foo/echo/bar") (ascii "/echo/") = true ∧
      HasPrefix (ascii "/foo/echo/bar") (ascii "/echo/") = false ∧
      (Parse ⟨⟨ascii "GET", ascii "/foo/echo/bar", ascii "HTTP/1.1"⟩, ⟨[], []⟩, [], []⟩).StatusCode
        = 200 ∧
      (Parse ⟨⟨ascii "GET", ascii "/foo/echo/bar", ascii "HTTP/1.1"⟩, ⟨[], []⟩, [], []⟩).StatusMessage
        = ascii "OK" ∧
      (Parse ⟨⟨ascii "GET", ascii "/foo/echo/bar", ascii "HTTP/1.1"⟩, ⟨[], []⟩, [], []⟩).Message
        = ascii "/foo/echo/bar" ∧
      (Parse ⟨⟨ascii "GET", ascii "/foo/echo/bar", ascii "HTTP/1.1"⟩, ⟨[], []⟩, [], []⟩).ContentLength
        = ((ascii "/foo/echo/bar").length : Int) ∧
      ∀ pre suf : Str, ascii "/foo/echo/bar" = pre ++ ascii "/echo/" ++ suf →
        (Parse ⟨⟨ascii "GET", ascii "/foo/echo/bar", ascii "HTTP/1.1"⟩, ⟨[], []⟩, [], []⟩).Message
          ≠ suf :=
  ⟨by decide, by decide,
    Parse_echo_inside ⟨⟨ascii "GET", ascii "/foo/echo/bar", ascii "HTTP/1.1"⟩, ⟨[], []⟩, [], []⟩
      (by decide) (by decide)⟩

theorem Split_append_last (sep : Byte) (b : Str) (hb : sep ∉ b) :
    ∀ a : Str, ∃ init last, Split a sep = init ++ [last]
      ∧ Split (a ++ b) sep = init ++ [last ++ b] := by
  intro a
  induction a with
  | nil =>
    refine ⟨[], [], rfl, ?_⟩
    have := Split_append_sep sep [] b hb
    induction b with
    | nil => rfl
    | cons c b ihb =>
      have hc : c ≠ sep := fun e => hb (by simp [e])
      have hb' : sep ∉ b := fun e => hb (List.mem_cons_of_mem _ e)
      have h1 := ihb hb' (Split_append_sep sep [] b hb')
      simp only [List.nil_append] at h1 ⊢
      rw [Split, if_neg hc, h1]
  | cons c a ih =>
    obtain ⟨init, last, h1, h2⟩ := ih
    by_cases hc : c = sep
    · refine ⟨[] :: init, last, ?_, ?_⟩
      · rw [Split, if_pos hc, h1]; rfl
      · rw [List.cons_append, Split, if_pos hc, h2]; rfl
    · cases init with
      | nil =>
        refine ⟨[], c :: last, ?_, ?_⟩
        · rw [Split, if_neg hc, h1]; rfl
        · rw [List.cons_append, Split, if_neg hc, h2]; rfl
      | cons f fs =>
        refine ⟨(c :: f) :: fs, last, ?_, ?_⟩
        · rw [Split, if_neg hc, h1]; rfl
        · rw [List.cons_append, Split, if_neg hc, h2]; rfl

theorem Split_mem_subset (sep : Byte) :
    ∀ a : Str, ∀ f ∈ Split a sep, ∀ x ∈ f, x ∈ a := by
  intro a
  induction a with
  | nil =>
    intro f hf x hx
    simp only [Split, List.mem_singleton] at hf
    rw [hf] at hx
    exact hx
  | cons c a ih =>
    intro f hf x hx
    rw [Split] at hf
    by_cases hc : c = sep
    · rw [if_pos hc] at hf
      rcases List.mem_cons.mp hf with e | e
      · rw [e] at hx; simp at hx
      · exact List.mem_cons_of_mem _ (ih f e x hx)
    · rw [if_neg hc] at hf
      cases hs : Split a sep with
      | nil =>
        rw [hs] at hf
        simp only [List.mem_singleton] at hf
        rw [hf] at hx
        simp only [List.mem_singleton] at hx
        rw [hx]
        exact List.mem_cons_self _ _
      | cons g gs =>
        rw [hs] at hf ih
        rcases List.mem_cons.mp hf with e | e
        · rw [e] at hx
          rcases List.mem_cons.mp hx with e1 | e1
          · rw [e1]; exact List.mem_cons_self _ _
          · exact List.mem_cons_of_mem _ (ih g (List.mem_cons_self _ _) x e1)
        · exact List.mem_cons_of_mem _ (ih f (List.mem_cons_of_mem _ e) x hx)

theorem TrimSuffix_append (x suf : Str) : TrimSuffix (x ++ suf) suf = x := by
  have h : HasSuffix (x ++ suf) suf = true := by
    simp [HasSuffix]
  simp [TrimSuffix, h]

/-- C19, as stated, fails: the line "GET / HTTP/1.1\n" ends in a line feed, contains
"HTTP/1.1" and has three fields, but it does not end in CRLF, so nothing is stripped and the
stored version "HTTP/1.1\n" holds a line feed. -/
theorem requestLoop_requestLine_counterexample :
    isLine (ascii "GET / HTTP/1.1\n") = true ∧
      Contains (ascii "GET / HTTP/1.1\n") (ascii "HTTP/1.1") = true ∧
      (Split (ascii "GET / HTTP/1.1\n") SP).length = 3 ∧
      NewRequest (ascii "GET / HTTP/1.1\n\r\n")
        = some ⟨⟨ascii "GET", ascii "/", ascii "HTTP/1.1\n"⟩, ⟨[], []⟩, [], ascii "*/*"⟩ ∧
      (10 : Byte) ∈ ascii "HTTP/1.1\n" := by
  decide

/-- C19, amended: for every line that ends in CRLF and holds no other CR or LF, contains
"HTTP/1.1" and splits on single spaces into exactly three fields, the loop of NewRequest goes
on with method set to the first field, target to the second, and version to the third with
its trailing CRLF stripped; the stored version contains no CR and no LF. -/
theorem requestLoop_requestLine (q : HttpRequest) (h : RequestHeaders) (body : Str)
    (rest : List Str) (hcr : (13 : Byte) ∉ body) (hlf : (10 : Byte) ∉ body)
    (hc : Contains (body ++ CLRF) (ascii "HTTP/1.1") = true)
    (hlen : (Split (body ++ CLRF) SP).length = 3) :
    ∃ h', requestLoop (q, h) ((body ++ CLRF) :: rest)
        = requestLoop
            (⟨(Split (body ++ CLRF) SP).getD 0 [], (Split (body ++ CLRF) SP).getD 1 [],
              TrimSuffix ((Split (body ++ CLRF) SP).getD 2 []) CLRF⟩, h') rest
      ∧ (13 : Byte) ∉ TrimSuffix ((Split (body ++ CLRF) SP).getD 2 []) CLRF
      ∧ (10 : Byte) ∉ TrimSuffix ((Split (body ++ CLRF) SP).getD 2 []) CLRF := by
  obtain ⟨init, last, h1, h2⟩ := Split_append_last SP CLRF (by decide) body
  have hlast : ∀ x ∈ last, x ∈ body :=
    Split_mem_subset SP body last (by rw [h1]; simp)
  rw [h2] at hlen ⊢
  have hinit : init.length = 2 := by simpa using hlen
  match init, hinit with
  | [f0, f1], _ =>
    have hne : body ++ CLRF ≠ CLRF := by
      intro e
      rw [e] at hc
      revert hc
      decide
    have hsp : (2 : Nat) ≤ (Split (body ++ CLRF) SP).length := by rw [h2]; simp
    have ht : TrimSuffix (last ++ CLRF) CLRF = last := TrimSuffix_append _ _
    simp only [List.cons_append, List.nil_append, List.getD_cons_zero, List.getD_cons_succ, ht]
    refine ⟨{ Host := if HasPrefix (body ++ CLRF) (ascii "Host:") then f1 else h.Host,
              UserAgent := if HasPrefix (body ++ CLRF) (ascii "User-Agent:") then f1
                else h.UserAgent }, ?_, fun hx => hcr (hlast _ hx), fun hx => hlf (hlast _ hx)⟩
    rw [requestLoop, if_neg hne]
    by_cases hu : HasPrefix (body ++ CLRF) (ascii "User-Agent:") = true <;>
      by_cases hh : HasPrefix (body ++ CLRF) (ascii "Host:") = true <;>
      simp [processLine, hu, hh, hc, h2, ht]

theorem requestLoop_requestLine_witness :
    (13 : Byte) ∉ ascii "GET /echo/abc HTTP/1.1" ∧ (10 : Byte) ∉ ascii "GET /echo/abc HTTP/1.1" ∧
      Contains (ascii "GET /echo/abc HTTP/1.1" ++ CLRF) (ascii "HTTP/1.1") = true ∧
      (Split (ascii "GET /echo/abc HTTP/1.1" ++ CLRF) SP).length = 3 ∧
      ∃ h', requestLoop (⟨[], [], []⟩, ⟨[], []⟩) ((ascii "GET /echo/abc HTTP/1.1" ++ CLRF) :: [])
          = requestLoop
              (⟨(Split (ascii "GET /echo/abc HTTP/1.1" ++ CLRF) SP).getD 0 [],
                (Split (ascii "GET /echo/abc HTTP/1.1" ++ CLRF) SP).getD 1 [],
                TrimSuffix ((Split (ascii "GET /echo/abc HTTP/1.1" ++ CLRF) SP).getD 2 []) CLRF⟩,
                h') []
        ∧ (13 : Byte) ∉ TrimSuffix ((Split (ascii "GET /echo/abc HTTP/1.1" ++ CLRF) SP).getD 2 [])
            CLRF
        ∧ (10 : Byte) ∉ TrimSuffix ((Split (ascii "GET /echo/abc HTTP/1.1" ++ CLRF) SP).getD 2 [])
            CLRF :=
  ⟨by decide, by decide, by decide, by decide,
    requestLoop_requestLine ⟨[], [], []⟩ ⟨[], []⟩ (ascii "GET /echo/abc HTTP/1.1") []
      (by decide) (by decide) (by decide) (by decide)⟩

/-! ## End to end -/

theorem requestLoop_unrecognised (more : List Str) :
    ∀ (hs : List Str) (st : HttpRequest × RequestHeaders),
      (∀ l ∈ hs, Contains l (ascii "HTTP/1.1") = false ∧
        HasPrefix l (ascii "User-Agent:") = false ∧ HasPrefix l (ascii "Host:") = false) →
      requestLoop st (hs ++ CLRF :: more) = some st := by
  intro hs
  induction hs with
  | nil => intro st _; simp [requestLoop]
  | cons l hs ih =>
    intro st h
    obtain ⟨h1, h2, h3⟩ := h l (List.mem_cons_self _ _)
    rw [List.cons_append, requestLoop]
    by_cases hl : l = CLRF
    · rw [if_pos hl]
    · rw [if_neg hl, processLine_ignored st l h1 h2 h3]
      exact ih st (fun x hx => h x (List.mem_cons_of_mem _ hx))

/-- The line "GET T HTTP/1.1\r\n" sets the three fields and leaves the headers alone. -/
theorem processLine_get (q : HttpRequest) (h : RequestHeaders) (T : Str)
    (hT : (32 : Byte) ∉ T) :
    processLine (q, h) (requestLine (ascii "GET") T)
      = some (⟨ascii "GET", T, ascii "HTTP/1.1"⟩, h) := by
  have hc : Contains (requestLine (ascii "GET") T) (ascii "HTTP/1.1") = true := by
    have e : requestLine (ascii "GET") T
        = (ascii "GET" ++ ascii " " ++ T ++ ascii " ") ++ ascii "HTTP/1.1" ++ CLRF := by
      simp [requestLine, ascii, CLRF, ofNat_lit]
    rw [e]
    exact Contains_append _ _ _
  have ht : TrimSuffix (ascii "HTTP/1.1\r\n") CLRF = ascii "HTTP/1.1" := by decide
  have e0 : requestLine (ascii "GET") T = (71 : Byte) :: (ascii "ET " ++ T ++ ascii " HTTP/1.1\r\n") := by
    simp [requestLine, ascii, ofNat_lit]
  have hu : HasPrefix (requestLine (ascii "GET") T) (ascii "User-Agent:") = false := by
    rw [e0]
    exact HasPrefix_cons_head_ne 71 85 _ (ascii "ser-Agent:") (by decide)
  have hh : HasPrefix (requestLine (ascii "GET") T) (ascii "Host:") = false := by
    rw [e0]
    exact HasPrefix_cons_head_ne 71 72 _ (ascii "ost:") (by decide)
  simp [processLine, hu, hh, hc, Split_requestLine (ascii "GET") T (by decide) hT, ht]

/-- The request that NewRequest builds from "GET T HTTP/1.1\r\n", unrecognised lines and the
blank line. -/
theorem NewRequest_get (T : Str) (hs : List Str) (hsp : (32 : Byte) ∉ T) (hlf : (10 : Byte) ∉ T)
    (hl : ∀ l ∈ hs, isLine l = true)
    (hh : ∀ l ∈ hs, Contains l (ascii "HTTP/1.1") = false ∧
      HasPrefix l (ascii "User-Agent:") = false ∧ HasPrefix l (ascii "Host:") = false) :
    NewRequest (requestLine (ascii "GET") T ++ streamOf hs ++ CLRF)
      = some ⟨⟨ascii "GET", T, ascii "HTTP/1.1"⟩, ⟨[], []⟩, [], ascii "*/*"⟩ := by
  have hb : (10 : Byte) ∉ ascii "GET " ++ T ++ ascii " HTTP/1.1\r" := by
    simp only [List.mem_append, not_or]
    exact ⟨⟨by decide, hlf⟩, by decide⟩
  have e : requestLine (ascii "GET") T ++ streamOf hs ++ CLRF
      = (ascii "GET " ++ T ++ ascii " HTTP/1.1\r") ++ 10 :: (streamOf hs ++ (CLRF ++ [])) := by
    simp [requestLine, ascii, CLRF, ofNat_lit]
  have e2 : (ascii "GET " ++ T ++ ascii " HTTP/1.1\r") ++ [10] = requestLine (ascii "GET") T := by
    simp [requestLine, ascii, ofNat_lit]
  have hne : requestLine (ascii "GET") T ≠ CLRF := by
    intro ec
    have := congrArg List.length ec
    simp [requestLine, ascii, CLRF] at this
  rw [NewRequest, e, readLines_append_line _ _ hb, e2, readLines_streamOf _ hs hl,
    readLines_CLRF, requestLoop, if_neg hne, processLine_get _ _ T hsp]
  simp only [requestLoop_unrecognised _ hs _ hh]

/-- The response of the router for the target "/". -/
theorem Parse_of_root (r : Request) (h : r.Target = ascii "/") :
    Parse r = { Version := r.Version, StatusCode := 200, StatusMessage := ascii "OK",
                ContentType := ascii "text/plain", ContentLength := 0, Message := [] } := by
  rw [Parse, if_pos h]
  rfl

/-- The response of the router for a target that starts with "/echo/". -/
theorem Parse_of_echo (r : Request) (S : Str) (h : r.Target = ascii "/echo/" ++ S) :
    Parse r = { Version := r.Version, StatusCode := 200, StatusMessage := ascii "OK",
                ContentType := ascii "text/plain", ContentLength := (S.length : Int),
                Message := S } := by
  have hne : r.Target ≠ ascii "/" := by
    rw [h]
    intro hc
    have := congrArg List.length hc
    simp [ascii] at this
  have hc : Contains r.Target (ascii "/echo/") = true := by
    rw [h]
    simpa using Contains_append [] (ascii "/echo/") S
  rw [Parse, if_neg hne, if_pos hc, handleEcho, h, TrimPrefix_append]

/-- The response of the router for a target that matches no route. -/
theorem Parse_of_notFound (r : Request) (hroot : r.Target ≠ ascii "/")
    (hecho : Contains r.Target (ascii "/echo/") = false)
    (hua : Contains r.Target (ascii "/user-agent") = false) :
    Parse r = { Version := r.Version, StatusCode := 404, StatusMessage := ascii "Not Found",
                ContentType := ascii "text/plain", ContentLength := 0, Message := [] } := by
  rw [Parse, if_neg hroot, hecho, hua]
  rfl

theorem all_not_mem (S : Str) (hS : S.all (fun c => c != 32 && c != 13 && c != 10) = true) :
    (32 : Byte) ∉ S ∧ (10 : Byte) ∉ S := by
  simp only [List.all_eq_true, Bool.and_eq_true, bne_iff_ne, ne_eq] at hS
  exact ⟨fun hc => (hS _ hc).1.1 rfl, fun hc => (hS _ hc).2 rfl⟩

/-- C14: end to end, the input "GET / HTTP/1.1\r\n", then any number of unrecognised header
lines (not containing "HTTP/1.1", not beginning with "User-Agent:" or "Host:"), then the blank
line produces exactly "HTTP/1.1 200 OK\r\nContent-Type: text/plain\r\nContent-Length: 0\r\n\r\n". -/
theorem handleConnection_root (hs : List Str)
    (h : ∀ l ∈ hs, isLine l = true ∧ Contains l (ascii "HTTP/1.1") = false ∧
      HasPrefix l (ascii "User-Agent:") = false ∧ HasPrefix l (ascii "Host:") = false) :
    handleConnection (ascii "GET / HTTP/1.1\r\n" ++ streamOf hs ++ CLRF)
      = some (ascii "HTTP/1.1 200 OK\r\nContent-Type: text/plain\r\nContent-Length: 0\r\n\r\n") := by
  have e : ascii "GET / HTTP/1.1\r\n" = requestLine (ascii "GET") (ascii "/") := by decide
  rw [handleConnection, e,
    NewRequest_get (ascii "/") hs (by decide) (by decide) (fun l hl => (h l hl).1)
      (fun l hl => (h l hl).2)]
  decide

theorem handleConnection_root_witness :
    (∀ l ∈ [ascii "Accept: */*\r\n", ascii "X-Id: 7\r\n"], isLine l = true ∧
        Contains l (ascii "HTTP/1.1") = false ∧ HasPrefix l (ascii "User-Agent:") = false ∧
        HasPrefix l (ascii "Host:") = false) ∧
      handleConnection (ascii "GET / HTTP/1.1\r\n"
          ++ streamOf [ascii "Accept: */*\r\n", ascii "X-Id: 7\r\n"] ++ CLRF)
        = some (ascii "HTTP/1.1 200 OK\r\nContent-Type: text/plain\r\nContent-Length: 0\r\n\r\n") :=
  ⟨by decide, handleConnection_root [ascii "Accept: */*\r\n", ascii "X-Id: 7\r\n"] (by decide)⟩

/-- C15: end to end, for every suffix S without space, CR or LF the input
"GET /echo/" + S + " HTTP/1.1\r\n" and the blank line produce exactly
"HTTP/1.1 200 OK\r\nContent-Type: text/plain\r\nContent-Length: ", the decimal numeral of the
byte length of S, "\r\n\r\n" and S. -/
theorem handleConnection_echo (S : Str)
    (hS : S.all (fun c => c != 32 && c != 13 && c != 10) = true) :
    handleConnection (ascii "GET /echo/" ++ S ++ ascii " HTTP/1.1\r\n" ++ CLRF)
        = some (ascii "HTTP/1.1 200 OK\r\nContent-Type: text/plain\r\nContent-Length: "
            ++ fmtInteger (S.length : Int) ++ CLRF ++ CLRF ++ S) ∧
      isIntNumeral (fmtInteger (S.length : Int)) (S.length : Int) = true := by
  refine ⟨?_, isIntNumeral_fmtInteger _⟩
  obtain ⟨hsp, hlf⟩ := all_not_mem S hS
  have e : ascii "GET /echo/" ++ S ++ ascii " HTTP/1.1\r\n" ++ CLRF
      = requestLine (ascii "GET") (ascii "/echo/" ++ S) ++ streamOf [] ++ CLRF := by
    simp [requestLine, ascii, streamOf, ofNat_lit]
  have hsp' : (32 : Byte) ∉ ascii "/echo/" ++ S := by
    simp only [List.mem_append, not_or]
    exact ⟨by decide, hsp⟩
  have hlf' : (10 : Byte) ∉ ascii "/echo/" ++ S := by
    simp only [List.mem_append, not_or]
    exact ⟨by decide, hlf⟩
  have hP := Parse_of_echo
    ⟨⟨ascii "GET", ascii "/echo/" ++ S, ascii "HTTP/1.1"⟩, ⟨[], []⟩, [], ascii "*/*"⟩ S rfl
  have h200 : fmtInteger 200 = ascii "200" := by decide
  rw [handleConnection, e, NewRequest_get _ [] hsp' hlf' (by simp) (by simp)]
  simp only [WriteResponse_eq, hP, h200]
  simp [ascii, CLRF, ofNat_lit]

theorem handleConnection_echo_witness :
    (ascii "abc").all (fun c => c != 32 && c != 13 && c != 10) = true ∧
      fmtInteger ((ascii "abc").length : Int) = ascii "3" ∧
      handleConnection (ascii "GET /echo/" ++ ascii "abc" ++ ascii " HTTP/1.1\r\n" ++ CLRF)
        = some (ascii "HTTP/1.1 200 OK\r\nContent-Type: text/plain\r\nContent-Length: "
            ++ fmtInteger ((ascii "abc").length : Int) ++ CLRF ++ CLRF ++ ascii "abc") ∧
      isIntNumeral (fmtInteger ((ascii "abc").length : Int)) ((ascii "abc").length : Int) = true :=
  ⟨by decide, by decide, handleConnection_echo (ascii "abc") (by decide)⟩

/-- C17: end to end, for every target T without space, CR or LF that is not "/" and contains
neither "/echo/" nor "/user-agent", the input "GET " + T + " HTTP/1.1\r\n" and the blank line
produce exactly
"HTTP/1.1 404 Not Found\r\nContent-Type: text/plain\r\nContent-Length: 0\r\n\r\n". -/
theorem handleConnection_notFound (T : Str)
    (hT : T.all (fun c => c != 32 && c != 13 && c != 10) = true) (hroot : T ≠ ascii "/")
    (hecho : Contains T (ascii "/echo/") = false)
    (hua : Contains T (ascii "/user-agent") = false) :
    handleConnection (ascii "GET " ++ T ++ ascii " HTTP/1.1\r\n" ++ CLRF)
      = some (ascii
          "HTTP/1.1 404 Not Found\r\nContent-Type: text/plain\r\nContent-Length: 0\r\n\r\n") := by
  obtain ⟨hsp, hlf⟩ := all_not_mem T hT
  have e : ascii "GET " ++ T ++ ascii " HTTP/1.1\r\n" ++ CLRF
      = requestLine (ascii "GET") T ++ streamOf [] ++ CLRF := by
    simp [requestLine, ascii, streamOf, ofNat_lit]
  have hP := Parse_of_notFound
    ⟨⟨ascii "GET", T, ascii "HTTP/1.1"⟩, ⟨[], []⟩, [], ascii "*/*"⟩ hroot hecho hua
  rw [handleConnection, e, NewRequest_get _ [] hsp hlf (by simp) (by simp)]
  simp only [WriteResponse_eq, hP]
  decide

theorem handleConnection_notFound_witness :
    (ascii "/nope").all (fun c => c != 32 && c != 13 && c != 10) = true ∧
      ascii "/nope" ≠ ascii "/" ∧ Contains (ascii "/nope") (ascii "/echo/") = false ∧
      Contains (ascii "/nope") (ascii "/user-agent") = false ∧
      handleConnection (ascii "GET " ++ ascii "/nope" ++ ascii " HTTP/1.1\r\n" ++ CLRF)
        = some (ascii
            "HTTP/1.1 404 Not Found\r\nContent-Type: text/plain\r\nContent-Length: 0\r\n\r\n") :=
  ⟨by decide, by decide, by decide, by decide,
    handleConnection_notFound (ascii "/nope") (by decide) (by decide) (by decide) (by decide)⟩

/-! ## Facts about UTF-8 decoding and `TrimSpace` -/

/-- Every listed encoding decodes to a white space rune of that width. -/
theorem spaceEncodings_sound :
    ∀ e ∈ spaceEncodings,
      IsSpace (DecodeRuneInString e).1 = true ∧ (DecodeRuneInString e).2 = e.length := by
  decide

theorem rune2_eq (a b : Nat) :
    ((a &&& 0x1F) <<< 6) ||| (b &&& 0x3F) = (a % 32) * 64 + b % 64 := by
  have h1 : a &&& 0x1F = a % 32 := Nat.and_pow_two_sub_one_eq_mod a 5
  have h2 : b &&& 0x3F = b % 64 := Nat.and_pow_two_sub_one_eq_mod b 6
  have h3 := Nat.mul_add_lt_is_or (i := 6) (b := b % 64) (Nat.mod_lt _ (by norm_num)) (a % 32)
  rw [h1, h2, Nat.shiftLeft_eq, ← Nat.mul_comm (2 ^ 6), ← h3]

theorem rune3_eq (a b c : Nat) :
    ((a &&& 0x0F) <<< 12) ||| ((b &&& 0x3F) <<< 6) ||| (c &&& 0x3F)
      = (a % 16) * 4096 + (b % 64) * 64 + c % 64 := by
  have h1 : a &&& 0x0F = a % 16 := Nat.and_pow_two_sub_one_eq_mod a 4
  have h2 : b &&& 0x3F = b % 64 := Nat.and_pow_two_sub_one_eq_mod b 6
  have h3 : c &&& 0x3F = c % 64 := Nat.and_pow_two_sub_one_eq_mod c 6
  have k1 := Nat.mul_add_lt_is_or (i := 6) (b := c % 64) (Nat.mod_lt _ (by norm_num))
    (2 ^ 6 * (a % 16) + b % 64)
  have k2 := Nat.mul_add_lt_is_or (i := 12) (b := (b % 64) * 2 ^ 6)
    (by have := Nat.mod_lt b (show 64 > 0 by norm_num); norm_num; omega) (a % 16)
  have e1 : (a % 16) <<< 12 ||| (b % 64) <<< 6 = 2 ^ 6 * (2 ^ 6 * (a % 16) + b % 64) := by
    rw [Nat.shiftLeft_eq, Nat.shiftLeft_eq, ← Nat.mul_comm (2 ^ 12), ← k2]
    norm_num
    omega
  rw [h1, h2, h3, e1, ← k1]
  norm_num
  omega

theorem decode_ascii (s0 : Byte) (t : Str) (h : s0.val < 0x80) :
    DecodeRuneInString (s0 :: t) = (s0.val, 1) := by
  rw [DecodeRuneInString]
  simp only [RuneSelf]
  rw [if_pos h]

theorem decode_append1 (s0 w : Byte) (ws : Str) (hw : w.val < 0x80) :
    DecodeRuneInString (s0 :: w :: ws) = DecodeRuneInString [s0] := by
  have hc : w.val < (if s0.val = 224 then 160 else if s0.val = 240 then 144 else 128) := by
    split_ifs <;> omega
  simp only [DecodeRuneInString, RuneSelf, List.length_cons, List.length_nil]
  simp only [if_pos (Or.inl hc : _ ∨ (if s0.val = 237 then 159 else if s0.val = 244 then 143 else 191) < w.val), ite_self]

theorem decode_append2 (s0 s1 w : Byte) (ws : Str) (hw : w.val < 0x80) :
    DecodeRuneInString (s0 :: s1 :: w :: ws) = DecodeRuneInString [s0, s1] := by
  simp only [DecodeRuneInString, RuneSelf, List.length_cons, List.length_nil]
  have hc : w.val < 128 ∨ 191 < w.val := Or.inl hw
  have l2 : ¬ (List.length ws + 1 + 1 + 1 < 2) := by omega
  simp only [if_pos hc, ite_self]
  by_cases h3 : s0.val < 224
  · simp [h3, l2]
  · by_cases h4 : s0.val < 240
    · simp [h3, h4]
    · simp [h3, h4]

theorem decode_append3 (s0 s1 s2 w : Byte) (ws : Str) (hw : w.val < 0x80) :
    DecodeRuneInString (s0 :: s1 :: s2 :: w :: ws) = DecodeRuneInString [s0, s1, s2] := by
  simp only [DecodeRuneInString, RuneSelf, List.length_cons, List.length_nil]
  have hc : w.val < 128 ∨ 191 < w.val := Or.inl hw
  have l2 : ¬ (List.length ws + 1 + 1 + 1 + 1 < 2) := by omega
  have l3 : ¬ (List.length ws + 1 + 1 + 1 + 1 < 3) := by omega
  simp only [if_pos hc, ite_self]
  by_cases h3 : s0.val < 224
  · simp [h3, l2]
  · by_cases h4 : s0.val < 240
    · simp [h3, h4, l3]
    · simp [h3, h4]

theorem decode_append4 (s0 s1 s2 s3 : Byte) (t ws : Str) :
    DecodeRuneInString (s0 :: s1 :: s2 :: s3 :: (t ++ ws))
      = DecodeRuneInString (s0 :: s1 :: s2 :: s3 :: t) := by
  simp only [DecodeRuneInString, RuneSelf, List.length_cons, List.length_append]
  have l2 : ¬ (List.length t + List.length ws + 1 + 1 + 1 + 1 < 2) := by omega
  have l3 : ¬ (List.length t + List.length ws + 1 + 1 + 1 + 1 < 3) := by omega
  have l4 : ¬ (List.length t + List.length ws + 1 + 1 + 1 + 1 < 4) := by omega
  have k2 : ¬ (List.length t + 1 + 1 + 1 + 1 < 2) := by omega
  have k3 : ¬ (List.length t + 1 + 1 + 1 + 1 < 3) := by omega
  have k4 : ¬ (List.length t + 1 + 1 + 1 + 1 < 4) := by omega
  by_cases h3 : s0.val < 224
  · simp [h3, l2, k2]
  · by_cases h4 : s0.val < 240
    · simp [h3, h4, l3, k3]
    · simp [h3, h4, l4, k4]

/-- Bytes that follow do not change the first rune when the first of them is below
`RuneSelf`. -/
theorem decode_append (w : Byte) (ws : Str) (hw : w.val < 0x80) (X : Str) (hX : X ≠ []) :
    DecodeRuneInString (X ++ w :: ws) = DecodeRuneInString X := by
  rcases X with _ | ⟨s0, _ | ⟨s1, _ | ⟨s2, _ | ⟨s3, t⟩⟩⟩⟩
  · exact absurd rfl hX
  · exact decode_append1 s0 w ws hw
  · exact decode_append2 s0 s1 w ws hw
  · exact decode_append3 s0 s1 s2 w ws hw
  · exact decode_append4 s0 s1 s2 s3 t (w :: ws)

theorem decode_bad_lead (s0 : Byte) (t : Str) (h : 0x80 ≤ s0.val)
    (h2 : s0.val < 0xC2 ∨ 0xF4 < s0.val) :
    DecodeRuneInString (s0 :: t) = (RuneError, 1) := by
  rw [DecodeRuneInString]
  simp only [RuneSelf]
  rw [if_neg (by omega), if_pos h2]

theorem decode_lead_one (s0 : Byte) (h : 0x80 ≤ s0.val) :
    DecodeRuneInString [s0] = (RuneError, 1) := by
  simp only [DecodeRuneInString, RuneSelf, List.length_cons, List.length_nil]
  simp only [ite_self, if_neg (show ¬ s0.val < 128 by omega)]

theorem decode_lead2 (s0 s1 : Byte) (t : Str) (h0 : 0xC2 ≤ s0.val) (h1 : s0.val < 0xE0) :
    DecodeRuneInString (s0 :: s1 :: t)
      = if s1.val < 0x80 ∨ 0xBF < s1.val then (RuneError, 1)
        else ((s0.val % 32) * 64 + s1.val % 64, 2) := by
  simp only [DecodeRuneInString, RuneSelf, List.length_cons, rune2_eq]
  have a1 : ¬ s0.val < 128 := by omega
  have a2 : ¬ (s0.val < 194 ∨ 244 < s0.val) := by omega
  have a3 : ¬ s0.val = 224 := by omega
  have a4 : ¬ s0.val = 240 := by omega
  have a5 : ¬ s0.val = 237 := by omega
  have a6 : ¬ s0.val = 244 := by omega
  have l2 : ¬ (List.length t + 1 + 1 < 2) := by omega
  simp [a1, a2, a3, a4, a5, a6, h1, l2]

theorem decode_lead3_two (s0 s1 : Byte) (h0 : 0xE0 ≤ s0.val) (h1 : s0.val ≤ 0xF4) :
    DecodeRuneInString [s0, s1] = (RuneError, 1) := by
  simp only [DecodeRuneInString, RuneSelf, List.length_cons, List.length_nil]
  have a1 : ¬ s0.val < 128 := by omega
  have a2 : ¬ (s0.val < 194 ∨ 244 < s0.val) := by omega
  have a3 : ¬ s0.val < 224 := by omega
  by_cases h4 : s0.val < 240 <;> simp [a1, a2, a3, h4]

theorem decode_lead3 (s0 s1 s2 : Byte) (t : Str) (h0 : 0xE0 ≤ s0.val) (h1 : s0.val < 0xF0) :
    DecodeRuneInString (s0 :: s1 :: s2 :: t)
      = if s1.val < (if s0.val = 224 then 160 else 128)
            ∨ (if s0.val = 237 then 159 else 191) < s1.val then (RuneError, 1)
        else if s2.val < 0x80 ∨ 0xBF < s2.val then (RuneError, 1)
        else ((s0.val % 16) * 4096 + (s1.val % 64) * 64 + s2.val % 64, 3) := by
  simp only [DecodeRuneInString, RuneSelf, List.length_cons, rune3_eq]
  have a1 : ¬ s0.val < 128 := by omega
  have a2 : ¬ (s0.val < 194 ∨ 244 < s0.val) := by omega
  have a3 : ¬ s0.val < 224 := by omega
  have a4 : ¬ s0.val = 240 := by omega
  have a6 : ¬ s0.val = 244 := by omega
  have l3 : ¬ (List.length t + 1 + 1 + 1 < 3) := by omega
  simp [a1, a2, a3, a4, a6, h1, l3]

theorem decode_lead4_three (s0 s1 s2 : Byte) (h0 : 0xF0 ≤ s0.val) (h1 : s0.val ≤ 0xF4) :
    DecodeRuneInString [s0, s1, s2] = (RuneError, 1) := by
  simp only [DecodeRuneInString, RuneSelf, List.length_cons, List.length_nil]
  have a1 : ¬ s0.val < 128 := by omega
  have a2 : ¬ (s0.val < 194 ∨ 244 < s0.val) := by omega
  have a3 : ¬ s0.val < 224 := by omega
  have a4 : ¬ s0.val < 240 := by omega
  simp [a1, a2, a3, a4]

theorem decode_lead4 (s0 s1 s2 s3 : Byte) (t : Str) (h0 : 0xF0 ≤ s0.val) (h1 : s0.val ≤ 0xF4) :
    DecodeRuneInString (s0 :: s1 :: s2 :: s3 :: t)
      = if s1.val < (if s0.val = 240 then 144 else 128)
            ∨ (if s0.val = 244 then 143 else 191) < s1.val then (RuneError, 1)
        else if s2.val < 0x80 ∨ 0xBF < s2.val then (RuneError, 1)
        else if s3.val < 0x80 ∨ 0xBF < s3.val then (RuneError, 1)
        else (((s0.val &&& 0x07) <<< 18) ||| ((s1.val &&& 0x3F) <<< 12)
            ||| ((s2.val &&& 0x3F) <<< 6) ||| (s3.val &&& 0x3F), 4) := by
  simp only [DecodeRuneInString, RuneSelf, List.length_cons]
  have a1 : ¬ s0.val < 128 := by omega
  have a2 : ¬ (s0.val < 194 ∨ 244 < s0.val) := by omega
  have a3 : ¬ s0.val < 224 := by omega
  have a4 : ¬ s0.val < 240 := by omega
  have a5 : ¬ s0.val = 224 := by omega
  have a6 : ¬ s0.val = 237 := by omega
  have l4 : ¬ (List.length t + 1 + 1 + 1 + 1 < 4) := by omega
  simp [a1, a2, a3, a4, a5, a6, l4]

theorem rune4_eq (a b c d : Nat) :
    ((a &&& 0x07) <<< 18) ||| ((b &&& 0x3F) <<< 12) ||| ((c &&& 0x3F) <<< 6) ||| (d &&& 0x3F)
      = (a % 8) * 262144 + (b % 64) * 4096 + (c % 64) * 64 + d % 64 := by
  have h1 : a &&& 0x07 = a % 8 := Nat.and_pow_two_sub_one_eq_mod a 3
  have h2 : b &&& 0x3F = b % 64 := Nat.and_pow_two_sub_one_eq_mod b 6
  have h3 : c &&& 0x3F = c % 64 := Nat.and_pow_two_sub_one_eq_mod c 6
  have h4 : d &&& 0x3F = d % 64 := Nat.and_pow_two_sub_one_eq_mod d 6
  have hb := Nat.mod_lt b (show 64 > 0 by norm_num)
  have hc := Nat.mod_lt c (show 64 > 0 by norm_num)
  have k1 := Nat.mul_add_lt_is_or (i := 18) (b := (b % 64) * 2 ^ 12)
    (by norm_num; omega) (a % 8)
  have k2 := Nat.mul_add_lt_is_or (i := 12) (b := (c % 64) * 2 ^ 6)
    (by norm_num; omega) (2 ^ 6 * (a % 8) + b % 64)
  have k3 := Nat.mul_add_lt_is_or (i := 6) (b := d % 64) (Nat.mod_lt _ (by norm_num))
    (2 ^ 6 * (2 ^ 6 * (a % 8) + b % 64) + c % 64)
  have e1 : (a % 8) <<< 18 ||| (b % 64) <<< 12 = 2 ^ 12 * (2 ^ 6 * (a % 8) + b % 64) := by
    rw [Nat.shiftLeft_eq, Nat.shiftLeft_eq, ← Nat.mul_comm (2 ^ 18), ← k1]
    norm_num
    omega
  have e2 : 2 ^ 12 * (2 ^ 6 * (a % 8) + b % 64) ||| (c % 64) <<< 6
      = 2 ^ 6 * (2 ^ 6 * (2 ^ 6 * (a % 8) + b % 64) + c % 64) := by
    rw [Nat.shiftLeft_eq, ← k2]
    norm_num
    omega
  rw [h1, h2, h3, h4, e1, e2, ← k3]
  norm_num
  omega

theorem isSpace_iff (r : Nat) :
    IsSpace r = true ↔ (r = 9 ∨ r = 10 ∨ r = 11 ∨ r = 12 ∨ r = 13 ∨ r = 32 ∨ r = 133 ∨ r = 160
      ∨ r = 5760 ∨ (8192 ≤ r ∧ r ≤ 8202) ∨ r = 8232 ∨ r = 8233 ∨ r = 8239 ∨ r = 8287
      ∨ r = 12288) := by
  unfold IsSpace
  by_cases h : r ≤ 0xFF
  · rw [if_pos h]
    simp only [decide_eq_true_eq]
    omega
  · rw [if_neg h]
    simp only [decide_eq_true_eq]
    omega

set_option maxRecDepth 100000 in
theorem isSpace_ascii : ∀ b : Byte, b.val < 128 → IsSpace b.val = true → [b] ∈ spaceEncodings := by
  decide

set_option maxRecDepth 100000 in
theorem asciiSpace_isSpace : ∀ b : Byte, asciiSpace b = true →
    b.val < 128 ∧ IsSpace b.val = true ∧ [b] ∈ spaceEncodings := by
  decide

set_option maxRecDepth 100000 in
theorem space_two : ∀ b : Byte, b.val = 133 ∨ b.val = 160 → [0xC2, b] ∈ spaceEncodings := by
  decide

set_option maxRecDepth 100000 in
theorem space_three_a : ∀ b : Byte,
    (128 ≤ b.val ∧ b.val ≤ 138) ∨ b.val = 168 ∨ b.val = 169 ∨ b.val = 175 →
      [0xE2, 0x80, b] ∈ spaceEncodings := by
  decide

theorem isSpace_RuneError : IsSpace RuneError = false := by decide

theorem decodeOk_error (s0 : Byte) (t : Str) : DecodeOk (s0 :: t) (RuneError, 1) := by
  refine ⟨le_refl _, by simp, ?_⟩
  intro h
  rw [isSpace_RuneError] at h
  exact absurd h (by simp)

theorem byte_eq_of_val (b : Byte) (n : Nat) (hn : n < 256) (h : b.val = n) : b = ⟨n, hn⟩ :=
  Fin.ext h

theorem space_four_key (a b c d : Nat) (ha : 240 ≤ a) (ha' : a ≤ 244) (hb : 128 ≤ b)
    (hb' : b ≤ 191)
    (hF0 : a = 240 → 144 ≤ b)
    (h : IsSpace (a % 8 * 262144 + b % 64 * 4096 + c % 64 * 64 + d % 64) = true) : False := by
  rw [isSpace_iff] at h
  have hy : b % 64 = b - 128 := by omega
  rw [hy] at h
  have hr : 65536 ≤ a % 8 * 262144 + (b - 128) * 4096 + c % 64 * 64 + d % 64 := by
    by_cases h0 : a % 8 = 0
    · have := hF0 (by omega)
      omega
    · omega
  omega

theorem space_three_key (a b c : Nat) (ha : 224 ≤ a) (ha' : a < 240) (hb : 128 ≤ b)
    (hb' : b ≤ 191) (hE0 : a = 224 → 160 ≤ b) (hc : 128 ≤ c) (hc' : c ≤ 191)
    (h : IsSpace (a % 16 * 4096 + b % 64 * 64 + c % 64) = true) :
    (a = 225 ∧ b = 154 ∧ c = 128)
      ∨ (a = 226 ∧ b = 128 ∧ ((128 ≤ c ∧ c ≤ 138) ∨ c = 168 ∨ c = 169 ∨ c = 175))
      ∨ (a = 226 ∧ b = 129 ∧ c = 159)
      ∨ (a = 227 ∧ b = 128 ∧ c = 128) := by
  rw [isSpace_iff] at h
  have hx : a % 16 = a - 224 := by omega
  have hy : b % 64 = b - 128 := by omega
  have hz : c % 64 = c - 128 := by omega
  rw [hx, hy, hz] at h
  rcases h with h | h | h | h | h | h | h | h | h | h | h | h | h | h | h
  all_goals first
    | (exfalso; omega)
    | (left; omega)
    | (right; left; omega)
    | (right; right; left; omega)
    | (right; right; right; omega)

theorem decodeOk (s0 : Byte) (t : Str) : DecodeOk (s0 :: t) (DecodeRuneInString (s0 :: t)) := by
  by_cases c1 : s0.val < 128
  · rw [decode_ascii s0 t c1]
    exact ⟨le_refl _, by simp, fun h => isSpace_ascii s0 c1 h⟩
  by_cases c2 : s0.val < 194 ∨ 244 < s0.val
  · rw [decode_bad_lead s0 t (by omega) c2]
    exact decodeOk_error s0 t
  rcases t with _ | ⟨s1, t1⟩
  · rw [decode_lead_one s0 (by omega)]
    exact decodeOk_error s0 []
  by_cases c3 : s0.val < 224
  · rw [decode_lead2 s0 s1 t1 (by omega) c3]
    by_cases d1 : s1.val < 128 ∨ 191 < s1.val
    · rw [if_pos d1]
      exact decodeOk_error s0 _
    · rw [if_neg d1]
      refine ⟨by simp, by simp, ?_⟩
      intro h
      rw [isSpace_iff] at h
      have key : s0.val = 194 ∧ (s1.val = 133 ∨ s1.val = 160) := by
        simp only at h
        omega
      have e0 := byte_eq_of_val s0 194 (by norm_num) key.1
      subst e0
      exact space_two s1 key.2
  rcases t1 with _ | ⟨s2, t2⟩
  · rw [decode_lead3_two s0 s1 (by omega) (by omega)]
    exact decodeOk_error s0 _
  by_cases c4 : s0.val < 240
  · rw [decode_lead3 s0 s1 s2 t2 (by omega) c4]
    by_cases d1 : s1.val < (if s0.val = 224 then 160 else 128)
        ∨ (if s0.val = 237 then 159 else 191) < s1.val
    · rw [if_pos d1]
      exact decodeOk_error s0 _
    rw [if_neg d1]
    by_cases d2 : s2.val < 128 ∨ 191 < s2.val
    · rw [if_pos d2]
      exact decodeOk_error s0 _
    rw [if_neg d2]
    refine ⟨by simp, by simp, ?_⟩
    intro h
    have b1 : 128 ≤ s1.val ∧ s1.val ≤ 191 ∧ (s0.val = 224 → 160 ≤ s1.val) := by
      split_ifs at d1 <;> omega
    have key := space_three_key s0.val s1.val s2.val (by omega) c4 b1.1 b1.2.1 b1.2.2
      (by omega) (by omega) h
    rcases key with ⟨k0, k1, k2⟩ | ⟨k0, k1, k2⟩ | ⟨k0, k1, k2⟩ | ⟨k0, k1, k2⟩
    · have e0 := byte_eq_of_val s0 225 (by norm_num) k0
      have e1 := byte_eq_of_val s1 154 (by norm_num) k1
      have e2 := byte_eq_of_val s2 128 (by norm_num) k2
      subst e0 e1 e2
      simp [spaceEncodings]
    · have e0 := byte_eq_of_val s0 226 (by norm_num) k0
      have e1 := byte_eq_of_val s1 128 (by norm_num) k1
      subst e0 e1
      exact space_three_a s2 k2
    · have e0 := byte_eq_of_val s0 226 (by norm_num) k0
      have e1 := byte_eq_of_val s1 129 (by norm_num) k1
      have e2 := byte_eq_of_val s2 159 (by norm_num) k2
      subst e0 e1 e2
      simp [spaceEncodings]
    · have e0 := byte_eq_of_val s0 227 (by norm_num) k0
      have e1 := byte_eq_of_val s1 128 (by norm_num) k1
      have e2 := byte_eq_of_val s2 128 (by norm_num) k2
      subst e0 e1 e2
      simp [spaceEncodings]
  rcases t2 with _ | ⟨s3, t3⟩
  · rw [decode_lead4_three s0 s1 s2 (by omega) (by omega)]
    exact decodeOk_error s0 _
  rw [decode_lead4 s0 s1 s2 s3 t3 (by omega) (by omega)]
  by_cases d1 : s1.val < (if s0.val = 240 then 144 else 128)
      ∨ (if s0.val = 244 then 143 else 191) < s1.val
  · rw [if_pos d1]
    exact decodeOk_error s0 _
  rw [if_neg d1]
  by_cases d2 : s2.val < 128 ∨ 191 < s2.val
  · rw [if_pos d2]
    exact decodeOk_error s0 _
  rw [if_neg d2]
  by_cases d3 : s3.val < 128 ∨ 191 < s3.val
  · rw [if_pos d3]
    exact decodeOk_error s0 _
  rw [if_neg d3]
  refine ⟨by simp, by simp, ?_⟩
  intro h
  exfalso
  have b1 : 128 ≤ s1.val ∧ s1.val ≤ 191 ∧ (s0.val = 240 → 144 ≤ s1.val) := by
    split_ifs at d1 <;> omega
  rw [rune4_eq] at h
  exact space_four_key s0.val s1.val s2.val s3.val (by omega) (by omega) b1.1 b1.2.1 b1.2.2 h

theorem lastRuneStart_le (s : Str) (lim : Int) :
    ∀ (fuel : Nat) (start : Int), lastRuneStart s lim fuel start ≤ start := by
  intro fuel
  induction fuel with
  | zero => intro start; simp [lastRuneStart]
  | succ n ih =>
    intro start
    rw [lastRuneStart]
    split_ifs
    · exact le_refl _
    · have := ih (start - 1)
      omega
    · exact le_refl _

/-- The last rune is the last byte when that byte is below `RuneSelf`; otherwise it is the
first rune of a suffix when that rune ends at the end of the string, and an error of width
one when it does not. -/
theorem decodeLast_eq (init : Str) (c : Byte) :
    ∃ start : Nat, start ≤ init.length ∧
      DecodeLastRuneInString (init ++ [c])
        = if c.val < 128 then (c.val, 1)
          else if start + (DecodeRuneInString ((init ++ [c]).drop start)).2 ≠ init.length + 1
            then (RuneError, 1)
          else DecodeRuneInString ((init ++ [c]).drop start) := by
  have hlen : (init ++ [c]).length = init.length + 1 := by simp
  have hget : (init ++ [c]).getD (init.length + 1 - 1) 0 = c := by
    simp [List.getD, List.getElem?_append_right]
  have htake : (init ++ [c]).take (init.length + 1) = init ++ [c] := by
    rw [← hlen, List.take_length]
  have key : ∀ z : Int, z ≤ ((init.length + 1 : Nat) : Int) - 2 →
      (if z < 0 then 0 else z.toNat) ≤ init.length := by
    intro z hz
    split_ifs <;> omega
  refine ⟨_, key _ (lastRuneStart_le (init ++ [c])
    (if ((init.length + 1 : Nat) : Int) - 4 < 0 then 0 else ((init.length + 1 : Nat) : Int) - 4)
    4 _), ?_⟩
  unfold DecodeLastRuneInString
  simp only [hlen, hget, htake, RuneSelf, Nat.add_one_ne_zero, if_false, Prod.mk.eta]

theorem decodeLast_spec (init : Str) (c : Byte) :
    1 ≤ (DecodeLastRuneInString (init ++ [c])).2 ∧
      (DecodeLastRuneInString (init ++ [c])).2 ≤ init.length + 1 ∧
      (DecodeRuneInString ((init ++ [c]).drop
          (init.length + 1 - (DecodeLastRuneInString (init ++ [c])).2))).2
        = (DecodeLastRuneInString (init ++ [c])).2 ∧
      (IsSpace (DecodeLastRuneInString (init ++ [c])).1 = true →
        (init ++ [c]).drop (init.length + 1 - (DecodeLastRuneInString (init ++ [c])).2)
          ∈ spaceEncodings) := by
  obtain ⟨start, hst, heq⟩ := decodeLast_eq init c
  have hdrop : (init ++ [c]).drop init.length = [c] := by simp
  rw [heq]
  by_cases hc : c.val < 128
  · rw [if_pos hc]
    simp only [Nat.add_sub_cancel, hdrop, decode_ascii c [] hc]
    exact ⟨le_refl _, by omega, trivial, fun h => isSpace_ascii c hc h⟩
  rw [if_neg hc]
  have hl : ((init ++ [c]).drop start).length = init.length + 1 - start := by simp
  obtain ⟨x0, t, hxt⟩ : ∃ x0 t, (init ++ [c]).drop start = x0 :: t := by
    cases h : (init ++ [c]).drop start with
    | nil => rw [h] at hl; simp at hl; omega
    | cons x0 t => exact ⟨x0, t, rfl⟩
  have hok := decodeOk x0 t
  rw [← hxt] at hok
  obtain ⟨h1, h2, h3⟩ := hok
  rw [hl] at h2
  by_cases hne : start + (DecodeRuneInString ((init ++ [c]).drop start)).2 ≠ init.length + 1
  · rw [if_pos hne]
    simp only [Nat.add_sub_cancel, hdrop, decode_lead_one c (by omega)]
    refine ⟨le_refl _, by omega, trivial, ?_⟩
    intro h
    rw [isSpace_RuneError] at h
    exact absurd h (by simp)
  · rw [if_neg hne]
    have hsz : (DecodeRuneInString ((init ++ [c]).drop start)).2 = init.length + 1 - start := by
      omega
    have hidx : init.length + 1 - (DecodeRuneInString ((init ++ [c]).drop start)).2 = start := by
      omega
    rw [hidx]
    refine ⟨h1, by omega, rfl, ?_⟩
    intro h
    have := h3 h
    rw [hsz, ← hl, List.take_length] at this
    exact this

theorem decodeLast_ascii (X : Str) (c : Byte) (hc : c.val < 128) :
    DecodeLastRuneInString (X ++ [c]) = (c.val, 1) := by
  obtain ⟨start, _, heq⟩ := decodeLast_eq X c
  rw [heq, if_pos hc]

theorem lastIndexFuncLoop_trailing (U ws : Str) (hU : U ≠ [])
    (hws : ∀ c ∈ ws, asciiSpace c = true)
    (hlast : IsSpace (DecodeLastRuneInString U).1 = false) :
    ∀ k, k ≤ ws.length → ∀ fuel, k + 1 ≤ fuel →
      lastIndexFuncLoop (U ++ ws) IsSpace false fuel (U.length + k)
        = some (U.length - (DecodeLastRuneInString U).2) := by
  have hUl : U.length ≠ 0 := fun h => hU (List.length_eq_zero.mp h)
  intro k
  induction k with
  | zero =>
    intro _ fuel hf
    obtain ⟨f, rfl⟩ : ∃ f, fuel = f + 1 := ⟨fuel - 1, by omega⟩
    rw [lastIndexFuncLoop, Nat.add_zero, if_neg hUl, List.take_left']
    · simp [hlast]
    · rfl
  | succ k ih =>
    intro hk fuel hf
    obtain ⟨f, rfl⟩ : ∃ f, fuel = f + 1 := ⟨fuel - 1, by omega⟩
    have hk' : k < ws.length := by omega
    have htake : (U ++ ws).take (U.length + (k + 1)) = (U ++ ws.take k) ++ [ws[k]] := by
      rw [List.take_append, List.take_succ, List.getElem?_eq_getElem hk']
      simp
    have hw := asciiSpace_isSpace ws[k] (hws _ (List.getElem_mem hk'))
    rw [lastIndexFuncLoop, if_neg (by omega), htake, decodeLast_ascii _ _ hw.1]
    simp only [hw.2.1]
    have := ih (by omega) f (by omega)
    simpa using this

/-- Trailing ASCII white space is cut off and nothing more when the last rune before it is not
white space. -/
theorem TrimRightFunc_trailing (U ws : Str) (hU : U ≠ [])
    (hws : ∀ c ∈ ws, asciiSpace c = true)
    (hlast : IsSpace (DecodeLastRuneInString U).1 = false) :
    TrimRightFunc (U ++ ws) IsSpace = U := by
  have hUl : U.length ≠ 0 := fun h => hU (List.length_eq_zero.mp h)
  have hloop := lastIndexFuncLoop_trailing U ws hU hws hlast ws.length (le_refl _)
    (U ++ ws).length (by simp; omega)
  obtain ⟨init, c, rfl⟩ : ∃ init c, U = init ++ [c] := by
    rcases List.eq_nil_or_concat U with h | ⟨init, c, h⟩
    · exact absurd h hU
    · exact ⟨init, c, by rw [h, List.concat_eq_append]⟩
  obtain ⟨h1, h2, h3, _⟩ := decodeLast_spec init c
  have hlen : (init ++ [c]).length = init.length + 1 := by simp
  rw [hlen] at hloop
  generalize hsz : (DecodeLastRuneInString (init ++ [c])).2 = size at h1 h2 h3 hloop
  have hi : init.length + 1 - size < (init ++ [c]).length := by rw [hlen]; omega
  have hdrop : (init ++ [c] ++ ws).drop (init.length + 1 - size)
      = (init ++ [c]).drop (init.length + 1 - size) ++ ws := by
    rw [List.drop_append_of_le_length (by rw [hlen]; omega)]
  have hcons : (init ++ [c]).drop (init.length + 1 - size)
      = (init ++ [c])[init.length + 1 - size] :: (init ++ [c]).drop (init.length + 1 - size + 1) :=
    List.drop_eq_getElem_cons hi
  have hdec : (DecodeRuneInString ((init ++ [c] ++ ws).drop (init.length + 1 - size))).2 = size := by
    rw [hdrop]
    rcases ws with _ | ⟨w, ws'⟩
    · rw [List.append_nil]; exact h3
    · have hw := asciiSpace_isSpace w (hws w (List.mem_cons_self _ _))
      have hne : (init ++ [c]).drop (init.length + 1 - size) ≠ [] := by
        rw [hcons]
        exact List.cons_ne_nil _ _
      rw [decode_append w ws' hw.1 _ hne]
      exact h3
  have hgetD : (init ++ [c] ++ ws).getD (init.length + 1 - size) 0
      = (init ++ [c])[init.length + 1 - size] := by
    rw [List.getD_eq_getElem?_getD, List.getElem?_append_left hi, List.getElem?_eq_getElem hi]
    rfl
  have hfull : (init ++ [c] ++ ws).take (init.length + 1) = init ++ [c] := by
    rw [← hlen, List.take_left']
    rfl
  have hli : lastIndexFunc (init ++ [c] ++ ws) IsSpace false = some (init.length + 1 - size) := by
    rw [lastIndexFunc]
    have : (init ++ [c] ++ ws).length = init.length + 1 + ws.length := by simp; omega
    rw [this] at hloop ⊢
    exact hloop
  rw [TrimRightFunc, hli]
  simp only [hgetD, hdec, RuneSelf]
  by_cases hb : 128 ≤ ((init ++ [c])[init.length + 1 - size]).val
  · rw [if_pos hb]
    have : init.length + 1 - size + size = init.length + 1 := by omega
    rw [this, hfull]
  · rw [if_neg hb]
    have h1' : size = 1 := by
      rw [hcons, decode_ascii _ _ (by omega)] at h3
      exact h3.symm
    have : init.length + 1 - size + 1 = init.length + 1 := by omega
    rw [this, hfull]

theorem not_infix_of_hasSpace (U : Str) (h : hasSpace U = false) :
    ∀ e ∈ spaceEncodings, ¬ e <:+: U := by
  intro e he hinf
  have hc : Contains U e = true := (Contains_iff U e).2 hinf
  have : hasSpace U = true := by
    unfold hasSpace
    rw [List.any_eq_true]
    exact ⟨e, he, hc⟩
  rw [h] at this
  exact Bool.false_ne_true this

theorem trimSpaceStop_skip (R : Str) :
    ∀ ws : Str, (∀ c ∈ ws, asciiSpace c = true) → trimSpaceStop (ws ++ R) = trimSpaceStop R := by
  intro ws
  induction ws with
  | nil => intro _; rfl
  | cons w ws ih =>
    intro h
    have hw := asciiSpace_isSpace w (h w (List.mem_cons_self _ _))
    rw [List.cons_append, trimSpaceStop, if_neg (by simp only [RuneSelf]; omega),
      if_pos (h w (List.mem_cons_self _ _))]
    exact ih (fun c hc => h c (List.mem_cons_of_mem _ hc))

/-- A string that is not empty and holds no white space character comes back unchanged when
ASCII white space is put behind it and the whole is trimmed. -/
theorem TrimSpace_trailing (U ws : Str) (hU : U ≠ []) (hsp : hasSpace U = false)
    (hws : ∀ c ∈ ws, asciiSpace c = true) : TrimSpace (U ++ ws) = U := by
  have hinf := not_infix_of_hasSpace U hsp
  obtain ⟨init, c, hUc⟩ : ∃ init c, U = init ++ [c] := by
    rcases List.eq_nil_or_concat U with h | ⟨init, c, h⟩
    · exact absurd h hU
    · exact ⟨init, c, by rw [h, List.concat_eq_append]⟩
  have hlast : IsSpace (DecodeLastRuneInString U).1 = false := by
    rw [Bool.eq_false_iff]
    intro h
    rw [hUc] at h
    have := (decodeLast_spec init c).2.2.2 h
    rw [← hUc] at this
    exact hinf _ this (List.drop_suffix _ U).isInfix
  obtain ⟨c0, t, hU0⟩ : ∃ c0 t, U = c0 :: t := by
    cases U with
    | nil => exact absurd rfl hU
    | cons c0 t => exact ⟨c0, t, rfl⟩
  have hfirst : IsSpace (DecodeRuneInString U).1 = false := by
    rw [Bool.eq_false_iff]
    intro h
    rw [hU0] at h
    have := (decodeOk c0 t).2.2 h
    rw [← hU0] at this
    exact hinf _ this (List.take_prefix _ U).isInfix
  have hc0 : asciiSpace c0 = false := by
    rw [Bool.eq_false_iff]
    intro h
    have := (asciiSpace_isSpace c0 h).2.2
    exact hinf _ this ⟨[], t, by rw [hU0]; rfl⟩
  have hright := TrimRightFunc_trailing U ws hU hws hlast
  rw [hU0, List.cons_append, TrimSpace]
  by_cases hb : RuneSelf ≤ c0.val
  · rw [if_pos hb, ← List.cons_append, ← hU0, TrimFunc]
    have hdec : DecodeRuneInString (U ++ ws) = DecodeRuneInString U := by
      rcases ws with _ | ⟨w, ws'⟩
      · rw [List.append_nil]
      · exact decode_append w ws' (asciiSpace_isSpace w (hws w (List.mem_cons_self _ _))).1 U hU
    have hleft : TrimLeftFunc (U ++ ws) IsSpace = U ++ ws := by
      have hidx : indexFunc (U ++ ws) IsSpace false = some 0 := by
        rw [indexFunc]
        have hl : (U ++ ws).length = (t.length + ws.length) + 1 := by
          rw [hU0]; simp
        rw [hl, hU0, List.cons_append, indexFuncLoop, ← List.cons_append, ← hU0, hdec]
        simp [hfirst]
      rw [TrimLeftFunc, hidx]
      rfl
    rw [hleft, hright]
  · rw [if_neg hb, hc0, ← List.cons_append, ← hU0]
    simp only [Bool.false_eq_true, if_false]
    rw [List.reverse_append, trimSpaceStop_skip _ _ (fun x hx => hws x (List.mem_reverse.mp hx)),
      hUc, List.reverse_append, List.reverse_singleton, List.singleton_append, trimSpaceStop]
    have hrev : (c :: init.reverse).reverse = init ++ [c] := by simp
    rw [hrev, ← hUc]
    by_cases hcb : RuneSelf ≤ c.val
    · rw [if_pos hcb]
      have := TrimRightFunc_trailing U [] hU (by simp) hlast
      rw [List.append_nil] at this
      exact this
    · rw [if_neg hcb]
      have hcs : asciiSpace c = false := by
        rw [Bool.eq_false_iff]
        intro h
        have := (asciiSpace_isSpace c h).2.2
        exact hinf _ this ⟨init, [], by rw [hUc]; simp⟩
      rw [hcs]
      rfl

/-! ## End to end: the User-Agent route -/

theorem Split_nosep (sep : Byte) : ∀ b : Str, sep ∉ b → Split b sep = [b] := by
  intro b
  induction b with
  | nil => intro _; rfl
  | cons c b ih =>
    intro h
    have hc : c ≠ sep := fun e => h (by simp [e])
    rw [Split, if_neg hc, ih (fun e => h (List.mem_cons_of_mem _ e))]

theorem Contains_eq_false (pat : Str) :
    ∀ s : Str, occurrences pat s = 0 → Contains s pat = false := by
  intro s
  induction s with
  | nil =>
    intro h
    cases pat with
    | nil => simp [occurrences, HasPrefix] at h
    | cons p ps => rfl
  | cons c t ih =>
    intro h
    rw [occurrences_cons] at h
    have h2 : occurrences pat t = 0 := by omega
    have h1 : HasPrefix (c :: t) pat = false := by
      rw [Bool.eq_false_iff]
      intro hp
      rw [hp] at h
      simp at h
    rw [Contains, h1, ih h2]
    rfl

theorem not_mem_of_hasSpace (U : Str) (h : hasSpace U = false) :
    (32 : Byte) ∉ U ∧ (13 : Byte) ∉ U ∧ (10 : Byte) ∉ U := by
  have hinf := not_infix_of_hasSpace U h
  refine ⟨fun hm => ?_, fun hm => ?_, fun hm => ?_⟩
  · obtain ⟨a, b, e⟩ := List.append_of_mem hm
    exact hinf [32] (by decide) ⟨a, b, by rw [e]; simp⟩
  · obtain ⟨a, b, e⟩ := List.append_of_mem hm
    exact hinf [13] (by decide) ⟨a, b, by rw [e]; simp⟩
  · obtain ⟨a, b, e⟩ := List.append_of_mem hm
    exact hinf [10] (by decide) ⟨a, b, by rw [e]; simp⟩

/-- The line "User-Agent: U\r\n" for a value U without space, CR, LF and "HTTP/1.1" stores
U followed by CRLF as UserAgent and changes nothing else. -/
theorem processLine_userAgent (q : HttpRequest) (h : RequestHeaders) (U : Str)
    (hsp : (32 : Byte) ∉ U) (hno : Contains U (ascii "HTTP/1.1") = false) :
    processLine (q, h) (ascii "User-Agent: " ++ U ++ CLRF)
      = some (q, { Host := h.Host, UserAgent := U ++ CLRF }) := by
  have e : ascii "User-Agent: " ++ U ++ CLRF = ascii "User-Agent:" ++ SP :: (U ++ CLRF) := by
    simp [ascii, SP, CLRF, ofNat_lit]
  have hsplit : Split (ascii "User-Agent: " ++ U ++ CLRF) SP = [ascii "User-Agent:", U ++ CLRF] := by
    have hb : SP ∉ U ++ CLRF := by
      simp only [List.mem_append, not_or]
      exact ⟨hsp, by decide⟩
    rw [e, Split_append_sep SP _ _ (by decide), Split_nosep SP _ hb]
  have hu : HasPrefix (ascii "User-Agent: " ++ U ++ CLRF) (ascii "User-Agent:") = true := by
    rw [e]
    exact HasPrefix_append _ _
  have hh := HasPrefix_exclusive _ hu
  have hc : Contains (ascii "User-Agent: " ++ U ++ CLRF) (ascii "HTTP/1.1") = false := by
    apply Contains_eq_false
    have e2 : ascii "User-Agent: " ++ U ++ CLRF
        = ascii "User-Agent:" ++ 32 :: (U ++ 13 :: [10]) := by
      simp [ascii, CLRF, ofNat_lit]
    have hP : ascii "HTTP/1.1" ≠ ([] : Str) := by decide
    rw [e2, occurrences_append_sep _ _ 32 (by decide) hP,
      occurrences_append_sep _ _ 13 (by decide) hP, occurrences_eq_zero _ _ hno]
    decide
  have hlen : 2 ≤ (Split (ascii "User-Agent: " ++ U ++ CLRF) SP).length := by
    rw [hsplit]
    simp
  rw [processLine_fields q h _ hc hlen, hu, hh, hsplit]
  rfl

/-- C16: the code does not answer every such User-Agent value: the value "HTTP/1.1" is not
empty and holds no white space, but the line "User-Agent: HTTP/1.1\r\n" contains "HTTP/1.1",
so it also enters the request line branch; it has two fields only, the index expression
`strings.Split(line, " ")[2]` is out of range and the handler panics instead of writing
"HTTP/1.1 200 OK ... Content-Length: 8" and the body "HTTP/1.1". -/
theorem handleConnection_userAgent_panics :
    ascii "HTTP/1.1" ≠ [] ∧ hasSpace (ascii "HTTP/1.1") = false ∧
      handleConnection (ascii "GET /user-agent HTTP/1.1\r\n"
          ++ (ascii "User-Agent: " ++ ascii "HTTP/1.1" ++ CLRF) ++ CLRF) = none := by
  decide

/-- End to end on the User-Agent route, where the unchecked index is not reached: for every
non-empty User-Agent value U that holds no white space character and does not contain
"HTTP/1.1", the input "GET /user-agent HTTP/1.1\r\n", "User-Agent: " + U + "\r\n", "\r\n"
produces exactly "HTTP/1.1 200 OK\r\nContent-Type: text/plain\r\nContent-Length: ", the
decimal numeral of the byte length of U, "\r\n\r\n" and U. -/
theorem handleConnection_userAgent (U : Str) (hU : U ≠ []) (hsp : hasSpace U = false)
    (hno : Contains U (ascii "HTTP/1.1") = false) :
    handleConnection (ascii "GET /user-agent HTTP/1.1\r\n"
          ++ (ascii "User-Agent: " ++ U ++ CLRF) ++ CLRF)
        = some (ascii "HTTP/1.1 200 OK\r\nContent-Type: text/plain\r\nContent-Length: "
            ++ fmtInteger (U.length : Int) ++ CLRF ++ CLRF ++ U) ∧
      isIntNumeral (fmtInteger (U.length : Int)) (U.length : Int) = true := by
  refine ⟨?_, isIntNumeral_fmtInteger _⟩
  obtain ⟨h32, h13, h10⟩ := not_mem_of_hasSpace U hsp
  have hl2 : isLine (ascii "User-Agent: " ++ U ++ CLRF) = true := by
    rw [isLine_iff]
    refine ⟨ascii "User-Agent: " ++ U ++ [13], by simp [CLRF, ascii, ofNat_lit], ?_⟩
    simp only [List.mem_append, not_or]
    exact ⟨⟨by decide, h10⟩, by decide⟩
  have hlines : ∀ l ∈ [ascii "GET /user-agent HTTP/1.1\r\n", ascii "User-Agent: " ++ U ++ CLRF],
      isLine l = true := by
    intro l hl
    rcases List.mem_cons.mp hl with e | hl
    · rw [e]; decide
    · rw [List.mem_singleton.mp hl]; exact hl2
  have e : ascii "GET /user-agent HTTP/1.1\r\n" ++ (ascii "User-Agent: " ++ U ++ CLRF) ++ CLRF
      = streamOf [ascii "GET /user-agent HTTP/1.1\r\n", ascii "User-Agent: " ++ U ++ CLRF]
          ++ (CLRF ++ []) := by
    simp [streamOf]
  have hne1 : ascii "GET /user-agent HTTP/1.1\r\n" ≠ CLRF := by decide
  have hne2 : ascii "User-Agent: " ++ U ++ CLRF ≠ CLRF := by
    intro ec
    have := congrArg List.length ec
    simp [ascii, CLRF] at this
  have hp1 : processLine (⟨[], [], []⟩, ⟨[], []⟩) (ascii "GET /user-agent HTTP/1.1\r\n")
      = some (⟨ascii "GET", ascii "/user-agent", ascii "HTTP/1.1"⟩, ⟨[], []⟩) :=
    processLine_get _ _ (ascii "/user-agent") (by decide)
  have hreq : NewRequest (ascii "GET /user-agent HTTP/1.1\r\n"
        ++ (ascii "User-Agent: " ++ U ++ CLRF) ++ CLRF)
      = some ⟨⟨ascii "GET", ascii "/user-agent", ascii "HTTP/1.1"⟩, ⟨[], U ++ CLRF⟩, [],
          ascii "*/*"⟩ := by
    rw [NewRequest, e, readLines_streamOf _ _ hlines, readLines_CLRF]
    simp only [List.cons_append, List.nil_append]
    rw [requestLoop, if_neg hne1, hp1]
    simp only
    rw [requestLoop, if_neg hne2, processLine_userAgent _ _ U h32 hno]
    simp [requestLoop]
  have hws : ∀ c ∈ CLRF, asciiSpace c = true := by
    intro c hc
    have hc' : c = 13 ∨ c = 10 := by simpa [CLRF, ascii, ofNat_lit] using hc
    rcases hc' with rfl | rfl <;> decide
  have htrim : TrimSpace (U ++ CLRF) = U := TrimSpace_trailing U CLRF hU hsp hws
  have hP : Parse ⟨⟨ascii "GET", ascii "/user-agent", ascii "HTTP/1.1"⟩, ⟨[], U ++ CLRF⟩, [],
        ascii "*/*"⟩
      = { Version := ascii "HTTP/1.1", StatusCode := 200, StatusMessage := ascii "OK",
          ContentType := ascii "text/plain", ContentLength := (U.length : Int), Message := U } := by
    have t1 : (ascii "/user-agent" : Str) ≠ ascii "/" := by decide
    have t2 : ¬ Contains (ascii "/user-agent") (ascii "/echo/") = true := by decide
    have t3 : Contains (ascii "/user-agent") (ascii "/user-agent") = true := by decide
    rw [Parse, if_neg t1, if_neg t2, if_pos t3, handleUserAgent]
    simp only [htrim]
  have h200 : fmtInteger 200 = ascii "200" := by decide
  rw [handleConnection, hreq]
  simp only [WriteResponse_eq, hP, h200]
  simp [ascii, CLRF, ofNat_lit]

theorem handleConnection_userAgent_witness :
    ascii "curl/8.1" ≠ [] ∧ hasSpace (ascii "curl/8.1") = false ∧
      Contains (ascii "curl/8.1") (ascii "HTTP/1.1") = false ∧
      fmtInteger ((ascii "curl/8.1").length : Int) = ascii "8" ∧
      handleConnection (ascii "GET /user-agent HTTP/1.1\r\n"
            ++ (ascii "User-Agent: " ++ ascii "curl/8.1" ++ CLRF) ++ CLRF)
          = some (ascii "HTTP/1.1 200 OK\r\nContent-Type: text/plain\r\nContent-Length: "
              ++ fmtInteger ((ascii "curl/8.1").length : Int) ++ CLRF ++ CLRF ++ ascii "curl/8.1") ∧
      isIntNumeral (fmtInteger ((ascii "curl/8.1").length : Int))
        ((ascii "curl/8.1").length : Int) = true :=
  ⟨by decide, by decide, by decide, by decide,
    handleConnection_userAgent (ascii "curl/8.1") (by decide) (by decide) (by decide)⟩

/-! ## Line feeds in the fields of a request -/

theorem TrimRightFunc_subset (s : Str) (f : Nat → Bool) : ∀ c ∈ TrimRightFunc s f, c ∈ s := by
  intro c hc
  unfold TrimRightFunc at hc
  cases h : lastIndexFunc s f false with
  | none => rw [h] at hc; simp at hc
  | some i =>
    rw [h] at hc
    simp only at hc
    split_ifs at hc <;> exact List.mem_of_mem_take hc

theorem TrimLeftFunc_subset (s : Str) (f : Nat → Bool) : ∀ c ∈ TrimLeftFunc s f, c ∈ s := by
  intro c hc
  unfold TrimLeftFunc at hc
  cases h : indexFunc s f false with
  | none => rw [h] at hc; simp at hc
  | some i =>
    rw [h] at hc
    exact List.mem_of_mem_drop hc

theorem trimSpaceStop_subset : ∀ R : Str, ∀ c ∈ trimSpaceStop R, c ∈ R := by
  intro R
  induction R with
  | nil => intro c hc; simp [trimSpaceStop] at hc
  | cons c0 t ih =>
    intro c hc
    rw [trimSpaceStop] at hc
    split_ifs at hc
    · exact List.mem_reverse.mp (TrimRightFunc_subset _ _ c hc)
    · exact List.mem_cons_of_mem _ (ih c hc)
    · exact List.mem_reverse.mp hc

theorem TrimSpace_subset : ∀ s : Str, ∀ c ∈ TrimSpace s, c ∈ s := by
  intro s
  induction s with
  | nil => intro c hc; simp [TrimSpace] at hc
  | cons c0 t ih =>
    intro c hc
    rw [TrimSpace] at hc
    split_ifs at hc
    · rw [TrimFunc] at hc
      exact TrimLeftFunc_subset _ _ c (TrimRightFunc_subset _ _ c hc)
    · exact List.mem_cons_of_mem _ (ih c hc)
    · exact List.mem_reverse.mp (trimSpaceStop_subset _ c hc)

/-- The index that the backwards loop returns lies below the position it starts from. -/
theorem lastIndexFuncLoop_lt (s : Str) (f : Nat → Bool) (truth : Bool) :
    ∀ (fuel i idx : Nat), i ≤ s.length →
      lastIndexFuncLoop s f truth fuel i = some idx → idx < i := by
  intro fuel
  induction fuel with
  | zero => intro i idx _ h; simp [lastIndexFuncLoop] at h
  | succ n ih =>
    intro i idx hi h
    rw [lastIndexFuncLoop] at h
    by_cases h0 : i = 0
    · rw [if_pos h0] at h; simp at h
    rw [if_neg h0] at h
    have hl : (s.take i).length = i := by simp; omega
    obtain ⟨init, c, hic⟩ : ∃ init c, s.take i = init ++ [c] := by
      rcases List.eq_nil_or_concat (s.take i) with e | ⟨init, c, e⟩
      · rw [e] at hl; simp at hl; omega
      · exact ⟨init, c, by rw [e, List.concat_eq_append]⟩
    have hsp := decodeLast_spec init c
    rw [← hic] at hsp
    have hil : init.length + 1 = i := by
      have := congrArg List.length hic
      simp at this
      omega
    obtain ⟨h1, h2, _, _⟩ := hsp
    simp only at h
    split_ifs at h
    · simp only [Option.some.injEq] at h
      omega
    · have := ih _ idx (by omega) h
      omega

/-- After a final line feed is cut off, nothing of it is left by `TrimRightFunc`. -/
theorem TrimRightFunc_lf (Z : Str) (hZ : (10 : Byte) ∉ Z) :
    (10 : Byte) ∉ TrimRightFunc (Z ++ [10]) IsSpace := by
  have hlen : (Z ++ [10]).length = Z.length + 1 := by simp
  have hstep : lastIndexFunc (Z ++ [10]) IsSpace false
      = lastIndexFuncLoop (Z ++ [10]) IsSpace false Z.length Z.length := by
    rw [lastIndexFunc, hlen, lastIndexFuncLoop, if_neg (by omega), ← hlen, List.take_length,
      decodeLast_ascii Z 10 (by decide)]
    have : IsSpace ((10 : Byte).val) = true := by decide
    simp [this]
  intro hmem
  unfold TrimRightFunc at hmem
  rw [hstep] at hmem
  cases hl : lastIndexFuncLoop (Z ++ [10]) IsSpace false Z.length Z.length with
  | none => rw [hl] at hmem; simp at hmem
  | some idx =>
    rw [hl] at hmem
    have hidx := lastIndexFuncLoop_lt _ _ _ _ _ idx (by rw [hlen]; omega) hl
    simp only at hmem
    have hdrop : (Z ++ [10]).drop idx = Z.drop idx ++ [10] :=
      List.drop_append_of_le_length (by omega)
    obtain ⟨x0, t, hxt⟩ : ∃ x0 t, Z.drop idx = x0 :: t := by
      cases h : Z.drop idx with
      | nil =>
        have := congrArg List.length h
        simp at this
        omega
      | cons x0 t => exact ⟨x0, t, rfl⟩
    have hw : (DecodeRuneInString ((Z ++ [10]).drop idx)).2 ≤ Z.length - idx := by
      rw [hdrop, decode_append 10 [] (by decide) _ (by rw [hxt]; exact List.cons_ne_nil _ _), hxt]
      have := (decodeOk x0 t).2.1
      have hl2 : (x0 :: t).length = Z.length - idx := by rw [← hxt]; simp
      rw [hl2] at this
      exact this
    have key : ∀ k, k ≤ Z.length → (10 : Byte) ∈ (Z ++ [10]).take k → False := by
      intro k hk hm
      rw [List.take_append_of_le_length hk] at hm
      exact hZ (List.mem_of_mem_take hm)
    split_ifs at hmem
    · exact key _ (by omega) hmem
    · exact key _ (by omega) hmem

theorem TrimFunc_lf (Y : Str) (hY : (10 : Byte) ∉ Y) :
    (10 : Byte) ∉ TrimFunc (Y ++ [10]) IsSpace := by
  rw [TrimFunc, TrimLeftFunc]
  cases h : indexFunc (Y ++ [10]) IsSpace false with
  | none =>
    intro hm
    have := TrimRightFunc_subset _ _ _ hm
    simp at this
  | some i =>
    simp only
    by_cases hi : i ≤ Y.length
    · rw [List.drop_append_of_le_length hi]
      exact TrimRightFunc_lf _ (fun hm => hY (List.mem_of_mem_drop hm))
    · have hd : (Y ++ [10]).drop i = [] := by
        apply List.drop_eq_nil_of_le
        simp
        omega
      rw [hd]
      intro hm
      have := TrimRightFunc_subset _ _ _ hm
      simp at this

/-- A value whose only line feed is its last byte is trimmed to a value without line feed. -/
theorem TrimSpace_lf : ∀ X : Str, (10 : Byte) ∉ X → (10 : Byte) ∉ TrimSpace (X ++ [10]) := by
  intro X
  induction X with
  | nil =>
    intro _
    have : TrimSpace ([] ++ [10]) = [] := by decide
    rw [this]
    simp
  | cons c t ih =>
    intro h
    have ht : (10 : Byte) ∉ t := fun hm => h (List.mem_cons_of_mem _ hm)
    rw [List.cons_append, TrimSpace]
    split_ifs
    · rw [← List.cons_append]
      exact TrimFunc_lf _ h
    · exact ih ht
    · have e : (c :: (t ++ [10])).reverse = 10 :: (c :: t).reverse := by simp
      rw [e, trimSpaceStop, if_neg (by decide), if_pos (by decide)]
      intro hm
      exact h (List.mem_reverse.mp (trimSpaceStop_subset _ _ hm))

/-- A value that holds no line feed before its last byte is trimmed to a value without line
feed. -/
theorem TrimSpace_no_lf (s : Str) (h : (10 : Byte) ∉ s.dropLast) : (10 : Byte) ∉ TrimSpace s := by
  rcases List.eq_nil_or_concat s with e | ⟨init, c, e⟩
  · rw [e]
    simp [TrimSpace]
  · rw [List.concat_eq_append] at e
    rw [e, List.dropLast_concat] at h
    by_cases hc : c = 10
    · rw [e, hc]
      exact TrimSpace_lf init h
    · intro hm
      have := TrimSpace_subset s _ hm
      rw [e] at this
      rcases List.mem_append.mp this with h1 | h1
      · exact h h1
      · exact hc (List.mem_singleton.mp h1).symm

theorem readLines_isLine : ∀ conn : Str, ∀ l ∈ readLines conn, isLine l = true := by
  intro conn
  induction conn with
  | nil => intro l hl; simp [readLines] at hl
  | cons c t ih =>
    intro l hl
    rw [readLines] at hl
    by_cases hc : c = 10
    · rw [if_pos hc] at hl
      rcases List.mem_cons.mp hl with e | e
      · rw [e, hc]; decide
      · exact ih l e
    · rw [if_neg hc] at hl
      cases hr : readLines t with
      | nil => rw [hr] at hl; simp at hl
      | cons l0 ls =>
        rw [hr] at hl ih
        rcases List.mem_cons.mp hl with e | e
        · obtain ⟨body, hb, hnb⟩ := (isLine_iff l0).1 (ih l0 (List.mem_cons_self _ _))
          rw [e, isLine_iff]
          refine ⟨c :: body, by rw [hb]; rfl, ?_⟩
          intro hm
          rcases List.mem_cons.mp hm with e1 | e1
          · exact hc e1.symm
          · exact hnb e1
        · exact ih l (List.mem_cons_of_mem _ e)

/-- The fields of a line: all but the last hold no line feed, and the last holds one only as
its last byte. -/
theorem Split_line (line : Str) (hl : isLine line = true) :
    ∃ init last, Split line SP = init ++ [last ++ [10]] ∧ (∀ f ∈ init, (10 : Byte) ∉ f)
      ∧ (10 : Byte) ∉ last := by
  obtain ⟨body, rfl, hb⟩ := (isLine_iff line).1 hl
  obtain ⟨init, last, h1, h2⟩ := Split_append_last SP [10] (by decide) body
  refine ⟨init, last, h2, ?_, ?_⟩
  · intro f hf hm
    exact hb (Split_mem_subset SP body f (by rw [h1]; simp [hf]) 10 hm)
  · intro hm
    exact hb (Split_mem_subset SP body last (by rw [h1]; simp) 10 hm)

theorem processLine_result (q q' : HttpRequest) (h h' : RequestHeaders) (line : Str)
    (hp : processLine (q, h) line = some (q', h')) :
    (q' = q ∨ ∃ f0 f1 f2 fs, Split line SP = f0 :: f1 :: f2 :: fs
        ∧ q' = ⟨f0, f1, TrimSuffix f2 CLRF⟩) ∧
      (h'.UserAgent = h.UserAgent ∨ ∃ f0 f1 fs, Split line SP = f0 :: f1 :: fs
        ∧ h'.UserAgent = f1) := by
  have hl := Split_length SP line
  cases hs : Split line SP with
  | nil => rw [hs] at hl; simp at hl
  | cons f fs =>
    cases fs with
    | nil =>
      by_cases hu : HasPrefix line (ascii "User-Agent:") = true <;>
        by_cases hh : HasPrefix line (ascii "Host:") = true <;>
        by_cases hc : Contains line (ascii "HTTP/1.1") = true <;>
        simp [processLine, hu, hh, hc, hs] at hp <;>
        (obtain ⟨rfl, rfl⟩ := hp; simp)
    | cons g gs =>
      cases gs with
      | nil =>
        by_cases hu : HasPrefix line (ascii "User-Agent:") = true <;>
          by_cases hh : HasPrefix line (ascii "Host:") = true <;>
          by_cases hc : Contains line (ascii "HTTP/1.1") = true <;>
          simp [processLine, hu, hh, hc, hs] at hp <;>
          (obtain ⟨rfl, rfl⟩ := hp; simp)
      | cons k ks =>
        by_cases hu : HasPrefix line (ascii "User-Agent:") = true <;>
          by_cases hh : HasPrefix line (ascii "Host:") = true <;>
          by_cases hc : Contains line (ascii "HTTP/1.1") = true <;>
          simp [processLine, hu, hh, hc, hs] at hp <;>
          (obtain ⟨rfl, rfl⟩ := hp; simp
           all_goals exact Or.inr ⟨_, _, _, ⟨rfl, rfl, rfl⟩, rfl, rfl, rfl⟩)

theorem mem_init_of_concat_eq_two {α : Type} (init : List α) (x f0 f1 : α) (fs : List α)
    (h : init ++ [x] = f0 :: f1 :: fs) : f1 ∈ init ∨ f1 = x := by
  rcases init with _ | ⟨a, _ | ⟨b, init⟩⟩
  · simp at h
  · simp at h
    exact Or.inr h.2.1.symm
  · simp at h
    exact Or.inl (by simp [h.2.1])

theorem mem_init_of_concat_eq_three {α : Type} (init : List α) (x f0 f1 f2 : α) (fs : List α)
    (h : init ++ [x] = f0 :: f1 :: f2 :: fs) : f1 ∈ init ∧ (f2 ∈ init ∨ f2 = x) := by
  rcases init with _ | ⟨a, _ | ⟨b, _ | ⟨c, init⟩⟩⟩
  · simp at h
  · simp at h
  · simp at h
    exact ⟨by simp [h.2.1], Or.inr h.2.2.1.symm⟩
  · simp at h
    exact ⟨by simp [h.2.1], Or.inl (by simp [h.2.2.1])⟩

theorem mem_dropLast_take (f : Str) (k : Nat) (x : Byte) (hx : x ∈ (f.take k).dropLast) :
    x ∈ f.dropLast := by
  rw [List.dropLast_eq_take] at hx ⊢
  rw [List.take_take] at hx
  have hle : min ((f.take k).length - 1) k ≤ f.length - 1 := by
    simp only [List.length_take]
    omega
  have e : f.take (min ((f.take k).length - 1) k)
      = (f.take (f.length - 1)).take (min ((f.take k).length - 1) k) := by
    rw [List.take_take, Nat.min_eq_left hle]
  rw [e] at hx
  exact List.mem_of_mem_take hx

theorem TrimSuffix_dropLast (f suf : Str) (h : (10 : Byte) ∉ f.dropLast) :
    (10 : Byte) ∉ (TrimSuffix f suf).dropLast := by
  unfold TrimSuffix
  split_ifs
  · exact fun hm => h (mem_dropLast_take f _ 10 hm)
  · exact h

theorem not_mem_dropLast_of_not_mem (f : Str) (h : (10 : Byte) ∉ f) :
    (10 : Byte) ∉ f.dropLast :=
  fun hm => h (List.mem_of_mem_dropLast hm)

/-- One turn of the loop on a line of the reader keeps: no line feed in the target, and none
before the last byte of the version and of the User-Agent value. -/
theorem processLine_line_feeds (q q' : HttpRequest) (h h' : RequestHeaders) (line : Str)
    (hl : isLine line = true) (hp : processLine (q, h) line = some (q', h'))
    (hinv : (10 : Byte) ∉ q.Target ∧ (10 : Byte) ∉ q.Version.dropLast
      ∧ (10 : Byte) ∉ h.UserAgent.dropLast) :
    (10 : Byte) ∉ q'.Target ∧ (10 : Byte) ∉ q'.Version.dropLast
      ∧ (10 : Byte) ∉ h'.UserAgent.dropLast := by
  obtain ⟨init, last, hs, hinit, hlast⟩ := Split_line line hl
  obtain ⟨hq, hh⟩ := processLine_result q q' h h' line hp
  have hx : (10 : Byte) ∉ (last ++ [10]).dropLast := by
    rw [List.dropLast_concat]
    exact hlast
  refine ⟨?_, ?_, ?_⟩
  · rcases hq with e | ⟨f0, f1, f2, fs, e1, e2⟩
    · rw [e]; exact hinv.1
    · rw [hs] at e1
      rw [e2]
      exact hinit f1 (mem_init_of_concat_eq_three _ _ _ _ _ _ e1).1
  · rcases hq with e | ⟨f0, f1, f2, fs, e1, e2⟩
    · rw [e]; exact hinv.2.1
    · rw [hs] at e1
      rw [e2]
      apply TrimSuffix_dropLast
      rcases (mem_init_of_concat_eq_three _ _ _ _ _ _ e1).2 with m | m
      · exact not_mem_dropLast_of_not_mem _ (hinit f2 m)
      · rw [m]; exact hx
  · rcases hh with e | ⟨f0, f1, fs, e1, e2⟩
    · rw [e]; exact hinv.2.2
    · rw [hs] at e1
      rw [e2]
      rcases mem_init_of_concat_eq_two _ _ _ _ _ e1 with m | m
      · exact not_mem_dropLast_of_not_mem _ (hinit f1 m)
      · rw [m]; exact hx

theorem requestLoop_line_feeds :
    ∀ (lines : List Str) (st st' : HttpRequest × RequestHeaders),
      (∀ l ∈ lines, isLine l = true) → requestLoop st lines = some st' →
      ((10 : Byte) ∉ st.1.Target ∧ (10 : Byte) ∉ st.1.Version.dropLast
        ∧ (10 : Byte) ∉ st.2.UserAgent.dropLast) →
      (10 : Byte) ∉ st'.1.Target ∧ (10 : Byte) ∉ st'.1.Version.dropLast
        ∧ (10 : Byte) ∉ st'.2.UserAgent.dropLast := by
  intro lines
  induction lines with
  | nil =>
    intro st st' _ h hinv
    simp only [requestLoop, Option.some.injEq] at h
    rw [← h]
    exact hinv
  | cons l lines ih =>
    intro st st' hl h hinv
    rw [requestLoop] at h
    by_cases hb : l = CLRF
    · rw [if_pos hb] at h
      simp only [Option.some.injEq] at h
      rw [← h]
      exact hinv
    · rw [if_neg hb] at h
      cases hp : processLine st l with
      | none => rw [hp] at h; simp at h
      | some st1 =>
        rw [hp] at h
        simp only at h
        have h1 := processLine_line_feeds st.1 st1.1 st.2 st1.2 l (hl l (List.mem_cons_self _ _))
          hp hinv
        exact ih st1 st' (fun x hx => hl x (List.mem_cons_of_mem _ hx)) h h1

/-- Every request that NewRequest builds holds no line feed in its target, and none before the
last byte of its version and of its User-Agent value. -/
theorem NewRequest_line_feeds (conn : Str) (r : Request) (h : NewRequest conn = some r) :
    (10 : Byte) ∉ r.Target ∧ (10 : Byte) ∉ r.Version.dropLast
      ∧ (10 : Byte) ∉ r.UserAgent.dropLast := by
  rw [NewRequest] at h
  cases hl : requestLoop (⟨[], [], []⟩, ⟨[], []⟩) (readLines conn) with
  | none => rw [hl] at h; simp at h
  | some st =>
    rw [hl] at h
    simp only [Option.some.injEq] at h
    have := requestLoop_line_feeds (readLines conn) _ st (readLines_isLine conn) hl
      (by simp)
    rw [← h]
    exact this

theorem Parse_message_no_lf (r : Request) (ht : (10 : Byte) ∉ r.Target)
    (hu : (10 : Byte) ∉ r.UserAgent.dropLast) : (10 : Byte) ∉ (Parse r).Message := by
  unfold Parse
  split_ifs
  · simp [ascii]
  · simp only [handleEcho, TrimPrefix]
    split_ifs
    · exact fun hm => ht (List.mem_of_mem_drop hm)
    · exact ht
  · simp only [handleUserAgent]
    exact TrimSpace_no_lf _ hu
  · simp [ascii]

theorem not_Contains_blank_of_dropLast (v : Str) (h : (10 : Byte) ∉ v.dropLast) :
    Contains v (CLRF ++ CLRF) = false := by
  rw [Bool.eq_false_iff]
  intro hc
  obtain ⟨a, b, e⟩ := (Contains_iff _ _).1 hc
  apply h
  have e2 : v = (a ++ [13, 10]) ++ (13 :: 10 :: b) := by
    rw [← e]
    simp [CLRF, ascii, ofNat_lit]
  rw [e2, List.dropLast_append_of_ne_nil _ (List.cons_ne_nil _ _)]
  simp

theorem not_Contains_blank_of_not_mem (body : Str) (h : (10 : Byte) ∉ body) :
    Contains (CLRF ++ body) (CLRF ++ CLRF) = false := by
  rw [Bool.eq_false_iff]
  intro hc
  have hinf := (Contains_iff _ _).1 hc
  have hle := hinf.sublist.count_le (10 : Byte)
  have c1 : (CLRF ++ CLRF).count (10 : Byte) = 2 := by decide
  have c2 : (CLRF ++ body).count (10 : Byte) = 1 := by
    rw [List.count_append, List.count_eq_zero.mpr h]
    decide
  omega

/-- C7: for every request r that NewRequest builds from the bytes of a connection,
WriteResponse(Parse(r)) returns bytes that start with "<version> <code> <message>" and CRLF,
contain exactly one occurrence of CRLF CRLF (the blank line between the headers and the
body), and end with the header line "Content-Length: " followed by the decimal byte length of
the body, that blank line, and the body. -/
theorem serialize_parsed_request (conn : Str) (r : Request) (h : NewRequest conn = some r) :
    ∃ out, WriteResponse (Parse r) = some out ∧
      (r.Version ++ ascii " " ++ fmtInteger (Parse r).StatusCode ++ ascii " "
          ++ (Parse r).StatusMessage ++ CLRF) <+: out ∧
      occurrences (CLRF ++ CLRF) out = 1 ∧
      (CLRF ++ ascii "Content-Length: " ++ fmtInteger ((Parse r).Message.length : Int)
          ++ CLRF ++ CLRF ++ (Parse r).Message) <:+ out := by
  obtain ⟨ht, hv, hu⟩ := NewRequest_line_feeds conn r h
  exact serialize_route r (not_Contains_blank_of_dropLast _ hv)
    (not_Contains_blank_of_not_mem _ (Parse_message_no_lf r ht hu))

theorem serialize_parsed_request_witness :
    NewRequest (ascii "GET /user-agent HTTP/1.1\r\nUser-Agent: curl/8.1\r\n\r\n")
        = some ⟨⟨ascii "GET", ascii "/user-agent", ascii "HTTP/1.1"⟩,
            ⟨[], ascii "curl/8.1\r\n"⟩, [], ascii "*/*"⟩ ∧
      ∃ out, WriteResponse (Parse ⟨⟨ascii "GET", ascii "/user-agent", ascii "HTTP/1.1"⟩,
            ⟨[], ascii "curl/8.1\r\n"⟩, [], ascii "*/*"⟩) = some out ∧
        (ascii "HTTP/1.1" ++ ascii " "
            ++ fmtInteger (Parse ⟨⟨ascii "GET", ascii "/user-agent", ascii "HTTP/1.1"⟩,
              ⟨[], ascii "curl/8.1\r\n"⟩, [], ascii "*/*"⟩).StatusCode ++ ascii " "
            ++ (Parse ⟨⟨ascii "GET", ascii "/user-agent", ascii "HTTP/1.1"⟩,
              ⟨[], ascii "curl/8.1\r\n"⟩, [], ascii "*/*"⟩).StatusMessage ++ CLRF) <+: out ∧
        occurrences (CLRF ++ CLRF) out = 1 ∧
        (CLRF ++ ascii "Content-Length: "
            ++ fmtInteger ((Parse ⟨⟨ascii "GET", ascii "/user-agent", ascii "HTTP/1.1"⟩,
              ⟨[], ascii "curl/8.1\r\n"⟩, [], ascii "*/*"⟩).Message.length : Int)
            ++ CLRF ++ CLRF ++ (Parse ⟨⟨ascii "GET", ascii "/user-agent", ascii "HTTP/1.1"⟩,
              ⟨[], ascii "curl/8.1\r\n"⟩, [], ascii "*/*"⟩).Message) <:+ out :=
  ⟨by decide,
    serialize_parsed_request (ascii "GET /user-agent HTTP/1.1\r\nUser-Agent: curl/8.1\r\n\r\n")
      ⟨⟨ascii "GET", ascii "/user-agent", ascii "HTTP/1.1"⟩, ⟨[], ascii "curl/8.1\r\n"⟩, [],
        ascii "*/*"⟩ (by decide)⟩

end MinimalWebServer
